import Mathlib

/-!
Verification of the CasOC transcription engine (OpenSim Moco, CasADi solver
backend).  The definitions below are a shallow embedding of the C++ sources
under `OpenSim/Moco/MocoCasADiSolver/`: `CasOCTranscription.h`,
`CasOCTrapezoidal.h`, `CasOCLegendreGauss.cpp` and
`CasOCLegendreGaussRadau.cpp`.  Dense real matrices are modelled over `ℚ`
(exact arithmetic); IEEE special values (infinities, NaN), which the bounds
and scaling logic branches on, are modelled by the `FpVal` type.
-/

namespace CasOC


/-- The variable kinds of the transcription (enum `Var` in `CasOCProblem.h`;
the set of kinds is listed in the spec's data model and used as map keys
throughout `CasOCTranscription.h`). -/
inductive Var where
  | initial_time
  | final_time
  | states
  | controls
  | multipliers
  | derivatives
  | parameters
  | projection_states
  | slacks
deriving DecidableEq, Repr

open Var

/-- A dense matrix with `rows × cols` meaningful entries, stored as a total
entry function (models `casadi::DM`). -/
structure Mat (α : Type) where
  rows : ℕ
  cols : ℕ
  entry : ℕ → ℕ → α

/-- Column `j` of a matrix as a list of its `rows` entries (models
`matrix(Slice(), j)`). -/
def Mat.col {α : Type} (A : Mat α) (j : ℕ) : List α :=
  (List.range A.rows).map (fun i => A.entry i j)

/-- Entrywise equality of two matrices on their meaningful ranges. -/
def Mat.EqOn {α : Type} (A B : Mat α) : Prop :=
  A.rows = B.rows ∧ A.cols = B.cols ∧
    ∀ i < A.rows, ∀ j < A.cols, A.entry i j = B.entry i j

instance {α : Type} [DecidableEq α] (A B : Mat α) : Decidable (A.EqOn B) := by
  unfold Mat.EqOn; infer_instance

/-- IEEE-style scalar values: finite rationals plus the special values
`+inf`, `-inf` and NaN that the bounds/scaling code branches on. -/
inductive FpVal where
  | fin (q : ℚ)
  | pinf
  | ninf
  | nan
deriving DecidableEq, Repr

namespace FpVal

/-- IEEE subtraction restricted to the cases the scaling code exercises:
finite minus finite is exact; same-signed infinities give NaN; NaN
propagates. -/
def sub : FpVal → FpVal → FpVal
  | fin a, fin b => fin (a - b)
  | fin _, pinf => ninf
  | fin _, ninf => pinf
  | pinf, fin _ => pinf
  | pinf, pinf => nan
  | pinf, ninf => pinf
  | ninf, fin _ => ninf
  | ninf, pinf => ninf
  | ninf, ninf => nan
  | nan, _ => nan
  | _, nan => nan

/-- IEEE addition (used for `upper + lower` in the scaling shift). -/
def add : FpVal → FpVal → FpVal
  | fin a, fin b => fin (a + b)
  | fin _, pinf => pinf
  | fin _, ninf => ninf
  | pinf, fin _ => pinf
  | pinf, pinf => pinf
  | pinf, ninf => nan
  | ninf, fin _ => ninf
  | ninf, pinf => nan
  | ninf, ninf => ninf
  | nan, _ => nan
  | _, nan => nan

/-- Multiplication by a rational constant (used for `-0.5 * (upper + lower)`). -/
def mulQ (c : ℚ) : FpVal → FpVal
  | fin a => fin (c * a)
  | pinf => if 0 < c then pinf else if c < 0 then ninf else nan
  | ninf => if 0 < c then ninf else if c < 0 then pinf else nan
  | nan => nan

/-- Test for `std::isinf`. -/
def isinf : FpVal → Bool
  | pinf => true
  | ninf => true
  | _ => false

/-- Test for `std::isnan`. -/
def isnan : FpVal → Bool
  | nan => true
  | _ => false

/-- IEEE equality comparison against zero (`dilate == 0`; NaN and the
infinities compare unequal to zero). -/
def eqZero : FpVal → Bool
  | fin a => a == 0
  | _ => false

end FpVal

/-- The `Bounds` value of `CasOCProblem.h` (not under `src/`).
Modelled from the spec: a (lower, upper) real pair, or "unset"
(unconstrained); unset bounds are materialized through NaN defaults, so
`isSet` holds exactly when neither endpoint is NaN. -/
structure Bounds where
  lower : FpVal
  upper : FpVal
deriving DecidableEq, Repr

/-- Modelled from the spec: a bounds pair is "set" when both endpoints are
actual numbers (the C++ default-constructs both endpoints to NaN). -/
def Bounds.isSet (b : Bounds) : Bool :=
  !b.lower.isnan && !b.upper.isnan

/-- The buffers of `Transcription` addressed by `setVariableBounds` and
`setVariableScaling`: per-kind lower/upper bound matrices and per-kind
scale/shift matrices (`m_lowerBounds`, `m_upperBounds`, `m_scale`,
`m_shift`), plus the per-kind scaled variable values (`m_scaledVars`, kept
here to state frame conditions). -/
structure TranscriptionBuffers where
  lowerBounds : Var → Mat FpVal
  upperBounds : Var → Mat FpVal
  scale : Var → Mat FpVal
  shift : Var → Mat FpVal
  scaledVars : Var → Mat ℚ

/-- Write the scalar `v` into the sub-block of `A` addressed by the given
row and column index lists (models `matrix(rowIndices, columnIndices) = v`). -/
def writeSubBlock {α : Type} (A : Mat α) (rowIndices columnIndices : List ℕ)
    (v : α) : Mat α where
  rows := A.rows
  cols := A.cols
  entry := fun i j =>
    if i ∈ rowIndices ∧ j ∈ columnIndices then v else A.entry i j

/-- Update one kind's matrix in a per-kind map, leaving the other kinds
untouched. -/
def updateKind {α : Type} (m : Var → Mat α) (key : Var) (A : Mat α) :
    Var → Mat α :=
  fun k => if k = key then A else m k

/-- Transcription::setVariableBounds (CasOCTranscription.h:85-98): writes
the bounds pair into the addressed sub-block of the kind's lower/upper
buffers; unset bounds become `-inf`/`+inf`.  Only the bound buffers are
touched. -/
def setVariableBounds (st : TranscriptionBuffers) (var : Var)
    (rowIndices columnIndices : List ℕ) (bounds : Bounds) :
    TranscriptionBuffers :=
  if bounds.isSet then
    { st with
      lowerBounds := updateKind st.lowerBounds var
        (writeSubBlock (st.lowerBounds var) rowIndices columnIndices
          bounds.lower)
      upperBounds := updateKind st.upperBounds var
        (writeSubBlock (st.upperBounds var) rowIndices columnIndices
          bounds.upper) }
  else
    { st with
      lowerBounds := updateKind st.lowerBounds var
        (writeSubBlock (st.lowerBounds var) rowIndices columnIndices
          FpVal.ninf)
      upperBounds := updateKind st.upperBounds var
        (writeSubBlock (st.upperBounds var) rowIndices columnIndices
          FpVal.pinf) }

/-- Transcription::setVariableScaling (CasOCTranscription.h:100-123): when
`getScaleVariablesUsingBounds()` holds, derives (dilate, shift) from the
bound width with the infinite/NaN and zero-width special cases, and writes
them into the addressed sub-block of the kind's scale/shift buffers;
otherwise writes identity scaling (1, 0). -/
def setVariableScaling (scaleVariablesUsingBounds : Bool)
    (st : TranscriptionBuffers) (key : Var)
    (rowIndices columnIndices : List ℕ) (bounds : Bounds) :
    TranscriptionBuffers :=
  if scaleVariablesUsingBounds then
    let lower := bounds.lower
    let upper := bounds.upper
    let dilate0 := FpVal.sub upper lower
    let pair : FpVal × FpVal :=
      if dilate0.isinf || dilate0.isnan then
        (FpVal.fin 1, FpVal.fin 0)
      else if dilate0.eqZero then
        (FpVal.fin 1, upper)
      else
        (dilate0, FpVal.mulQ (-(1/2)) (FpVal.add upper lower))
    { st with
      scale := updateKind st.scale key
        (writeSubBlock (st.scale key) rowIndices columnIndices pair.1)
      shift := updateKind st.shift key
        (writeSubBlock (st.shift key) rowIndices columnIndices pair.2) }
  else
    { st with
      scale := updateKind st.scale key
        (writeSubBlock (st.scale key) rowIndices columnIndices (FpVal.fin 1))
      shift := updateKind st.shift key
        (writeSubBlock (st.shift key) rowIndices columnIndices (FpVal.fin 0)) }

/-- Transcription::scaleVariables (CasOCTranscription.h:343-360):
`scaled = (unscaled - shift) / dilate`, applied per kind, with the kind's
shift/dilate column vectors broadcast across all columns (`DM::repmat`). -/
def scaleVariables (shiftv dilatev : Var → ℕ → ℚ) (vars : Var → Mat ℚ) :
    Var → Mat ℚ :=
  fun key =>
    { rows := (vars key).rows
      cols := (vars key).cols
      entry := fun i j =>
        ((vars key).entry i j - shiftv key i) / dilatev key i }

/-- Transcription::unscaleVariables (CasOCTranscription.h:323-340):
`unscaled = scaled * dilate + shift`, applied per kind, with the kind's
shift/dilate column vectors broadcast across all columns (`DM::repmat`). -/
def unscaleVariables (shiftv dilatev : Var → ℕ → ℚ) (vars : Var → Mat ℚ) :
    Var → Mat ℚ :=
  fun key =>
    { rows := (vars key).rows
      cols := (vars key).cols
      entry := fun i j =>
        (vars key).entry i j * dilatev key i + shiftv key i }

/-- Transcription::getSortedVarKeys (CasOCTranscription.h:231-244): the
fixed canonical kind order used by `expandVariables`. -/
def getSortedVarKeys : List Var :=
  [initial_time, final_time, parameters, states, controls, multipliers,
    derivatives]

/-- casadi::DM::reshape of a flat slice into a `rows × cols` matrix
(casadi matrices are column-major). -/
def reshapeColMajor (x : List ℚ) (r c : ℕ) : Mat ℚ where
  rows := r
  cols := c
  entry := fun i j => x.getD (j * r + i) 0

/-- Transcription::expandVariables (CasOCTranscription.h:307-320): slices
the flat column vector back into per-kind matrices, iterating the canonical
kind order and taking each kind's shape from `m_scaledVars` (passed here as
`scaledVarsShape`).  The variables map is modelled as an association list in
insertion order. -/
def expandVariables (scaledVarsShape : Var → ℕ × ℕ) (x : List ℚ) :
    List (Var × Mat ℚ) :=
  (getSortedVarKeys.foldl
    (fun acc key =>
      let rc := scaledVarsShape key
      (acc.1 ++ [(key,
          reshapeColMajor ((x.drop acc.2).take (rc.1 * rc.2)) rc.1 rc.2)],
        acc.2 + rc.1 * rc.2))
    ([], 0)).1

/-- Transcription::flattenVariablesDM (CasOCTranscription.h:281-305):
concatenates, for each mesh interval, N copies of the initial-time,
final-time, state and control columns (N = numPointsPerMeshInterval - 1),
then the final grid point's columns of those same four kinds. -/
def flattenVariablesDM (numMeshIntervals numPointsPerMeshInterval
    numGridPoints : ℕ) (vars : Var → Mat ℚ) : List ℚ :=
  let N := numPointsPerMeshInterval - 1
  ((List.range numMeshIntervals).flatMap (fun imesh =>
    let igrid := imesh * N
    ((List.range N).flatMap (fun i => (vars initial_time).col (igrid + i)))
    ++ ((List.range N).flatMap (fun i => (vars final_time).col (igrid + i)))
    ++ ((List.range N).flatMap (fun i => (vars states).col (igrid + i)))
    ++ ((List.range N).flatMap (fun i => (vars controls).col (igrid + i)))))
  ++ (vars initial_time).col (numGridPoints - 1)
  ++ (vars final_time).col (numGridPoints - 1)
  ++ (vars states).col (numGridPoints - 1)
  ++ (vars controls).col (numGridPoints - 1)

/-- Look a kind up in an association-list variables map (returns an empty
matrix when the kind is absent). -/
def lookupVar (vs : List (Var × Mat ℚ)) (key : Var) : Mat ℚ :=
  ((vs.find? (fun p => p.1 == key)).map Prod.snd).getD ⟨0, 0, fun _ _ => 0⟩

/-- The per-kind shapes of the C1 failing input: one mesh interval with
numPointsPerMeshInterval = 3 (so 3 grid points), time variables of shape
1 × 3, and no states, controls, parameters, multipliers or derivatives. -/
def c1Shapes : Var → ℕ × ℕ := fun k =>
  match k with
  | initial_time => (1, 3)
  | final_time => (1, 3)
  | _ => (0, 0)

/-- The C1 failing input itself: initial-time copies [1, 2, 3] and
final-time copies [4, 5, 6]. -/
def c1Vars : Var → Mat ℚ := fun k =>
  match k with
  | initial_time =>
      ⟨1, 3, fun _ j => if j = 0 then 1 else if j = 1 then 2 else 3⟩
  | final_time =>
      ⟨1, 3, fun _ j => if j = 0 then 4 else if j = 1 then 5 else 6⟩
  | _ => ⟨0, 0, fun _ _ => 0⟩

/-- The record of arguments that the Trapezoidal constructor passes to
`createVariablesAndSetBounds` (CasOCTrapezoidal.h:38-44) when construction
succeeds. -/
structure TrapezoidalInit where
  numDefectsPerMeshInterval : ℕ
  numPointsPerMeshInterval : ℕ
  mesh : List ℚ
  controlPoints : List Bool
deriving DecidableEq, Repr

/-- Trapezoidal::Trapezoidal (CasOCTrapezoidal.h:30-45): throws a
configuration error when kinematic constraint derivative enforcement is
requested, before any variable buffers are created; otherwise calls
`createVariablesAndSetBounds(mesh, numStates, 2, controlPoints)` with one
control point per mesh point. -/
def trapezoidalConstructor (enforceConstraintDerivatives : Bool)
    (numStates : ℕ) (mesh : List ℚ) : Except String TrapezoidalInit :=
  if enforceConstraintDerivatives then
    Except.error
      "Enforcing kinematic constraint derivatives not supported with trapezoidal transcription."
  else
    Except.ok
      { numDefectsPerMeshInterval := numStates
        numPointsPerMeshInterval := 2
        mesh := mesh
        controlPoints := mesh.map (fun _ => true) }

/-- LegendreGauss::getVariableOrder (CasOCLegendreGauss.cpp:103-147): the
scheme's authoritative flatten layout, with per-interval projection-state
and slack entries starting at the second mesh interval. -/
def getVariableOrderLG (numMeshIntervals numPointsPerMeshInterval degree
    numGridPoints : ℕ) (interpolateControlMeshInteriorPoints : Bool) :
    List (Var × ℕ) :=
  let N := numPointsPerMeshInterval - 1
  ((List.range numMeshIntervals).flatMap (fun imesh =>
    let igrid := imesh * N
    [(initial_time, imesh), (final_time, imesh), (parameters, imesh)]
    ++ (if 0 < imesh then
          [(projection_states, imesh - 1), (slacks, imesh - 1)]
        else [])
    ++ (List.range N).map (fun i => (states, igrid + i))
    ++ (if interpolateControlMeshInteriorPoints then
          (List.range degree).map (fun d => (controls, igrid + d + 1))
        else
          (List.range N).map (fun i => (controls, igrid + i)))
    ++ (List.range N).map (fun i => (multipliers, igrid + i))
    ++ (List.range N).map (fun i => (derivatives, igrid + i))))
  ++ [(initial_time, numMeshIntervals), (final_time, numMeshIntervals),
      (parameters, numMeshIntervals),
      (projection_states, numMeshIntervals - 1),
      (slacks, numMeshIntervals - 1), (states, numGridPoints - 1)]
  ++ (if !interpolateControlMeshInteriorPoints then
        [(controls, numGridPoints - 1)]
      else [])
  ++ [(multipliers, numGridPoints - 1), (derivatives, numGridPoints - 1)]

/-- LegendreGauss::createQuadratureCoefficientsImpl
(CasOCLegendreGauss.cpp:26-46), entrywise: entry `igrid + d + 1` with
`igrid = imesh * (degree + 1)` accumulates `w(d) * meshIntervals(imesh)`;
mesh points accumulate nothing.  `w` is the scheme's per-interval
quadrature weight vector `m_quadratureCoefficients` (set in the scheme
header, outside `src/`), kept as a parameter. -/
def lgQuadCoefficients (degree numMeshIntervals : ℕ) (mesh w : ℕ → ℚ) :
    ℕ → ℚ :=
  fun j =>
    ∑ p ∈ Finset.range numMeshIntervals ×ˢ Finset.range degree,
      if p.1 * (degree + 1) + (p.2 + 1) = j then
        w p.2 * (mesh (p.1 + 1) - mesh p.1)
      else 0

/-- The Legendre-Gauss quadrature coefficient column of length
numGridPoints = numMeshIntervals * (degree + 1) + 1. -/
def lgQuadCoefficientsImpl (degree numMeshIntervals : ℕ) (mesh w : ℕ → ℚ) :
    List ℚ :=
  (List.range (numMeshIntervals * (degree + 1) + 1)).map
    (lgQuadCoefficients degree numMeshIntervals mesh w)

/-- LegendreGaussRadau::createQuadratureCoefficientsImpl
(CasOCLegendreGaussRadau.cpp:26-44), entrywise: entry `igrid + d + 1` with
`igrid = imesh * degree` accumulates `w(d) * meshIntervals(imesh)`. -/
def lgrQuadCoefficients (degree numMeshIntervals : ℕ) (mesh w : ℕ → ℚ) :
    ℕ → ℚ :=
  fun j =>
    ∑ p ∈ Finset.range numMeshIntervals ×ˢ Finset.range degree,
      if p.1 * degree + (p.2 + 1) = j then
        w p.2 * (mesh (p.1 + 1) - mesh p.1)
      else 0

/-- The Legendre-Gauss-Radau quadrature coefficient column of length
numGridPoints = numMeshIntervals * degree + 1. -/
def lgrQuadCoefficientsImpl (degree numMeshIntervals : ℕ) (mesh w : ℕ → ℚ) :
    List ℚ :=
  (List.range (numMeshIntervals * degree + 1)).map
    (lgrQuadCoefficients degree numMeshIntervals mesh w)

/-- Modelled from the spec: the degree-1 Legendre-Gauss-Radau per-interval
quadrature weight vector (the scheme's `m_quadratureCoefficients`, set in
`CasOCLegendreGaussRadau.h`, which is not under `src/`).  The degree-1
Radau rule is backward Euler, whose single weight on the unit interval
is 1. -/
def lgrWeightsDegreeOne : ℕ → ℚ := fun _ => 1

/-- The two-point mesh [0, 1] used for the C5 counterexample. -/
def unitMeshTwoPoints : ℕ → ℚ := fun i => if i = 0 then 0 else 1

/-- LegendreGauss::createMeshIndicesImpl (CasOCLegendreGauss.cpp:48-55):
zeros of length numGridPoints, with ones written at `imesh * (degree + 1)`
for each mesh interval and at the last grid point. -/
def lgMeshIndicesImpl (degree numMeshIntervals : ℕ) : List ℚ :=
  let numGridPoints := numMeshIntervals * (degree + 1) + 1
  let base :=
    (List.range numMeshIntervals).foldl
      (fun f imesh => Function.update f (imesh * (degree + 1)) (1 : ℚ))
      (fun _ => (0 : ℚ))
  (List.range numGridPoints).map
    (Function.update base (numGridPoints - 1) 1)

/-- LegendreGaussRadau::createMeshIndicesImpl
(CasOCLegendreGaussRadau.cpp:46-53): zeros of length numGridPoints, with
ones written at `imesh * degree` for each mesh interval and at the last
grid point. -/
def lgrMeshIndicesImpl (degree numMeshIntervals : ℕ) : List ℚ :=
  let numGridPoints := numMeshIntervals * degree + 1
  let base :=
    (List.range numMeshIntervals).foldl
      (fun f imesh => Function.update f (imesh * degree) (1 : ℚ))
      (fun _ => (0 : ℚ))
  (List.range numGridPoints).map
    (Function.update base (numGridPoints - 1) 1)

/-- Modelled from the spec: Trapezoidal::createMeshIndicesImpl lives in
`CasOCTrapezoidal.cpp`, which is not under `src/`.  For the trapezoidal
scheme every grid point is a mesh point (numGridPoints = numMeshPoints and
the spec's scenario gives meshIndicesMask = [1,1,1,1] for 3 intervals), so
the mask is all ones. -/
def trapezoidalMeshIndicesImpl (numMeshPoints : ℕ) : List ℚ :=
  List.replicate numMeshPoints 1

/-- Transcription::createMeshIndices (CasOCTranscription.h:47-63): calls
the scheme's impl and raises an internal-consistency error when the
returned mask is not a row vector of length numGridPoints or its entries
do not sum to the number of mesh points. -/
def createMeshIndicesChecked (numGridPoints numMeshPoints : ℕ)
    (meshIndices : List ℚ) : Except String (List ℚ) :=
  if meshIndices.length ≠ numGridPoints then
    Except.error
      "createMeshIndicesImpl() must return a row vector of shape length [1, numGridPoints]."
  else if meshIndices.sum ≠ (numMeshPoints : ℚ) then
    Except.error
      "Internal error: sum of mesh indices should be the number of mesh points."
  else Except.ok meshIndices

/-- A slice assignment `defects(Slice(lo, hi), col) = v` on a matrix held
as an entry function: rows `lo ≤ r < hi` of column `col` take `v (r - lo)`,
everything else is untouched. -/
def writeBlock (A : ℕ → ℕ → ℚ) (lo hi col : ℕ) (v : ℕ → ℚ) : ℕ → ℕ → ℚ :=
  fun r c => if lo ≤ r ∧ r < hi ∧ c = col then v (r - lo) else A r c

/-- The LGR residual `h * xdot_i - x_i * differentiationMatrix`
(CasOCLegendreGaussRadau.cpp:70-84): entry (s, d) with
`h = times(igrid + degree) - times(igrid)`,
`xdot_i = xdot(:, igrid+1 : igrid+degree+1)` and
`x_i = x(:, igrid : igrid+degree+1)`. -/
def lgrResidual (degree : ℕ) (x xdot : ℕ → ℕ → ℚ) (times : ℕ → ℚ)
    (diffMatrix : ℕ → ℕ → ℚ) (igrid : ℕ) (s d : ℕ) : ℚ :=
  (times (igrid + degree) - times igrid) * xdot s (igrid + 1 + d) -
    ∑ k ∈ Finset.range (degree + 1), x s (igrid + k) * diffMatrix k d

/-- One iteration of the mesh-interval loop of
LegendreGaussRadau::calcDefectsImpl (CasOCLegendreGaussRadau.cpp:68-90):
writes the initial-time difference into row 0, the final-time difference
into row 1, the parameter differences into rows 2 .. 2+NP-1 and, for each
`d < degree`, the residual column `d` into rows
`d*NS + 2 + NP .. (d+1)*NS + 2 + NP - 1` of defect column `imesh`. -/
def lgrFillInterval (numStates numParameters degree : ℕ)
    (x xdot : ℕ → ℕ → ℚ) (ti tf : ℕ → ℚ) (p : ℕ → ℕ → ℚ) (times : ℕ → ℚ)
    (diffMatrix : ℕ → ℕ → ℚ) (defects : ℕ → ℕ → ℚ) (imesh : ℕ) :
    ℕ → ℕ → ℚ :=
  let igrid := imesh * degree
  let step0 := writeBlock defects 0 1 imesh (fun _ => ti (imesh + 1) - ti imesh)
  let step1 := writeBlock step0 1 2 imesh (fun _ => tf (imesh + 1) - tf imesh)
  let step2 := writeBlock step1 2 (2 + numParameters) imesh
    (fun r => p r (imesh + 1) - p r imesh)
  (List.range degree).foldl
    (fun A d =>
      writeBlock A (d * numStates + 2 + numParameters)
        ((d + 1) * numStates + 2 + numParameters) imesh
        (fun s => lgrResidual degree x xdot times diffMatrix igrid s d))
    step2

/-- LegendreGaussRadau::calcDefectsImpl
(CasOCLegendreGaussRadau.cpp:61-91): the mesh-interval loop over the
initial defects matrix. -/
def lgrCalcDefectsImpl (numStates numParameters degree numMeshIntervals : ℕ)
    (x xdot : ℕ → ℕ → ℚ) (ti tf : ℕ → ℚ) (p : ℕ → ℕ → ℚ) (times : ℕ → ℚ)
    (diffMatrix : ℕ → ℕ → ℚ) (defects0 : ℕ → ℕ → ℚ) : ℕ → ℕ → ℚ :=
  (List.range numMeshIntervals).foldl
    (lgrFillInterval numStates numParameters degree x xdot ti tf p times
      diffMatrix)
    defects0

/-- The all-zero `rows × cols` matrix (`T(casadi::Sparsity::dense(r, c))`). -/
def zeroMat (r c : ℕ) : Mat ℚ where
  rows := r
  cols := c
  entry := fun _ _ => 0

/-- Assign column `j` of a matrix (`matrix(Slice(), j) = v`). -/
def Mat.setCol (A : Mat ℚ) (j : ℕ) (v : ℕ → ℚ) : Mat ℚ where
  rows := A.rows
  cols := A.cols
  entry := fun i j2 => if j2 = j then v i else A.entry i j2

/-- The named slots of the `Constraints` aggregate
(CasOCTranscription.h:125-137); endpoint and path constraints form indexed
families. -/
inductive CSlot where
  | itime
  | ftime
  | cparams
  | cdefects
  | mbr
  | aux
  | kin
  | endp (i : ℕ)
  | cpath (i : ℕ)
  | interp
deriving DecidableEq, Repr

/-- The `Constraints<casadi::DM>` aggregate (CasOCTranscription.h:125-137). -/
structure ConstraintsQ where
  initial_time : Mat ℚ
  final_time : Mat ℚ
  parameters : Mat ℚ
  defects : Mat ℚ
  multibody_residuals : Mat ℚ
  auxiliary_residuals : Mat ℚ
  kinematic : Mat ℚ
  endpoint : List (Mat ℚ)
  path : List (Mat ℚ)
  interp_controls : Mat ℚ

/-- Read the matrix stored in a slot. -/
def ConstraintsQ.get (c : ConstraintsQ) : CSlot → Mat ℚ
  | CSlot.itime => c.initial_time
  | CSlot.ftime => c.final_time
  | CSlot.cparams => c.parameters
  | CSlot.cdefects => c.defects
  | CSlot.mbr => c.multibody_residuals
  | CSlot.aux => c.auxiliary_residuals
  | CSlot.kin => c.kinematic
  | CSlot.endp i => c.endpoint.getD i (zeroMat 0 0)
  | CSlot.cpath i => c.path.getD i (zeroMat 0 0)
  | CSlot.interp => c.interp_controls

/-- Assign column `j` of a slot's matrix. -/
def ConstraintsQ.setCol (c : ConstraintsQ) (s : CSlot) (j : ℕ) (v : ℕ → ℚ) :
    ConstraintsQ :=
  match s with
  | CSlot.itime => { c with initial_time := c.initial_time.setCol j v }
  | CSlot.ftime => { c with final_time := c.final_time.setCol j v }
  | CSlot.cparams => { c with parameters := c.parameters.setCol j v }
  | CSlot.cdefects => { c with defects := c.defects.setCol j v }
  | CSlot.mbr =>
      { c with multibody_residuals := c.multibody_residuals.setCol j v }
  | CSlot.aux =>
      { c with auxiliary_residuals := c.auxiliary_residuals.setCol j v }
  | CSlot.kin => { c with kinematic := c.kinematic.setCol j v }
  | CSlot.endp i =>
      { c with endpoint :=
          c.endpoint.set i ((c.endpoint.getD i (zeroMat 0 0)).setCol j v) }
  | CSlot.cpath i =>
      { c with path :=
          c.path.set i ((c.path.getD i (zeroMat 0 0)).setCol j v) }
  | CSlot.interp => { c with interp_controls := c.interp_controls.setCol j v }

/-- The dimension data a Transcription instance carries into
`flattenConstraints`/`expandConstraints`: the `m_num*` members, the
Problem-declared endpoint/path output counts, and the Solver's
path-constraint-midpoints flag. -/
structure CDims where
  numMeshIntervals : ℕ
  numPointsPerMeshInterval : ℕ
  numDefectsPerMeshInterval : ℕ
  numMultibodyResiduals : ℕ
  numAuxiliaryResiduals : ℕ
  numKinematicConstraintEquations : ℕ
  numParameterConstraints : ℕ
  numPathConstraintPoints : ℕ
  numControls : ℕ
  endpointNumOutputs : List ℕ
  pathInfoSizes : List ℕ
  numPointsForInterpControls : ℕ
  enforcePathConstraintMidpoints : Bool

/-- `N = m_numPointsPerMeshInterval - 1` as in the traversal loops. -/
def CDims.N (D : CDims) : ℕ := D.numPointsPerMeshInterval - 1

/-- numGridPoints for a grid of numMeshIntervals intervals with stride N. -/
def CDims.numGridPoints (D : CDims) : ℕ := D.numMeshIntervals * D.N + 1

/-- numMeshPoints = numMeshIntervals + 1. -/
def CDims.numMeshPoints (D : CDims) : ℕ := D.numMeshIntervals + 1

/-- The row count `expandConstraints` allocates for each slot
(CasOCTranscription.h:513-539). -/
def declaredRows (D : CDims) : CSlot → ℕ
  | CSlot.itime => 1
  | CSlot.ftime => 1
  | CSlot.cparams => D.numParameterConstraints
  | CSlot.cdefects => D.numDefectsPerMeshInterval
  | CSlot.mbr => D.numMultibodyResiduals
  | CSlot.aux => D.numAuxiliaryResiduals
  | CSlot.kin => D.numKinematicConstraintEquations
  | CSlot.endp i => D.endpointNumOutputs.getD i 0
  | CSlot.cpath i => D.pathInfoSizes.getD i 0
  | CSlot.interp => D.numControls

/-- The column count `expandConstraints` allocates for each slot
(CasOCTranscription.h:513-539). -/
def declaredCols (D : CDims) : CSlot → ℕ
  | CSlot.itime => D.numParameterConstraints
  | CSlot.ftime => D.numParameterConstraints
  | CSlot.cparams => D.numMeshPoints - 1
  | CSlot.cdefects => D.numMeshPoints - 1
  | CSlot.mbr => D.numGridPoints
  | CSlot.aux => D.numGridPoints
  | CSlot.kin => D.numMeshPoints
  | CSlot.endp _ => 1
  | CSlot.cpath _ => D.numPathConstraintPoints
  | CSlot.interp => D.numPointsForInterpControls

/-- An indexed slot refers to an actually registered endpoint or path
constraint. -/
def SlotOK (D : CDims) : CSlot → Prop
  | CSlot.endp i => i < D.endpointNumOutputs.length
  | CSlot.cpath i => i < D.pathInfoSizes.length
  | _ => True

instance (D : CDims) (s : CSlot) : Decidable (SlotOK D s) := by
  cases s <;> simp only [SlotOK] <;> infer_instance

/-- The common traversal order of `flattenConstraints`
(CasOCTranscription.h:429-500) and `expandConstraints`
(CasOCTranscription.h:551-622): endpoint blocks first, then per-mesh-
interval blocks of time/parameter continuity, defects, multibody/auxiliary
residuals, kinematic, path and interpolating-control columns (with the
running time/parameter/interp column counters), then the final grid
point's residual, kinematic and path columns. -/
def constraintVisits (D : CDims) : List (CSlot × ℕ) :=
  (List.range D.endpointNumOutputs.length).map (fun e => (CSlot.endp e, 0))
  ++ (List.range D.numMeshIntervals).flatMap (fun imesh =>
      (List.range D.N).map (fun i => (CSlot.itime, imesh * D.N + i))
      ++ (List.range D.N).map (fun i => (CSlot.ftime, imesh * D.N + i))
      ++ (List.range D.N).map (fun i => (CSlot.cparams, imesh * D.N + i))
      ++ [(CSlot.cdefects, imesh)]
      ++ (List.range D.N).flatMap (fun i =>
            [(CSlot.mbr, imesh * D.N + i), (CSlot.aux, imesh * D.N + i)])
      ++ [(CSlot.kin, imesh)]
      ++ (if D.enforcePathConstraintMidpoints then
            (List.range D.N).flatMap (fun i =>
              (List.range D.pathInfoSizes.length).map
                (fun ip => (CSlot.cpath ip, imesh * D.N + i)))
          else
            (List.range D.pathInfoSizes.length).map
              (fun ip => (CSlot.cpath ip, imesh)))
      ++ (if D.numPointsForInterpControls ≠ 0 then
            (List.range (D.N - 1)).map
              (fun i => (CSlot.interp, imesh * (D.N - 1) + i))
          else []))
  ++ [(CSlot.mbr, D.numGridPoints - 1), (CSlot.aux, D.numGridPoints - 1),
      (CSlot.kin, D.numMeshPoints - 1)]
  ++ (if D.enforcePathConstraintMidpoints then
        (List.range D.pathInfoSizes.length).map
          (fun ip => (CSlot.cpath ip, D.numGridPoints - 1))
      else
        (List.range D.pathInfoSizes.length).map
          (fun ip => (CSlot.cpath ip, D.numMeshPoints - 1)))

/-- The column a single `copyColumn` call copies out of the aggregate
(empty when the slot has zero rows, exactly as `copyColumn` skips it). -/
def colOf (c : ConstraintsQ) (v : CSlot × ℕ) : List ℚ :=
  (c.get v.1).col v.2

/-- One `copyColumn` of the flatten direction
(CasOCTranscription.h:370-377): appends the addressed column to the
running flat vector; a column index outside the slot's matrix is a casadi
out-of-range error. -/
def flattenStep (c : ConstraintsQ) (acc : List ℚ) (v : CSlot × ℕ) :
    Except String (List ℚ) :=
  if (c.get v.1).rows = 0 then Except.ok acc
  else if v.2 < (c.get v.1).cols then Except.ok (acc ++ colOf c v)
  else Except.error "column index out of range"

/-- The flatten traversal loop. -/
def flattenLoop (c : ConstraintsQ) :
    List (CSlot × ℕ) → List ℚ → Except String (List ℚ)
  | [], acc => Except.ok acc
  | v :: vs, acc =>
      match flattenStep c acc v with
      | Except.ok acc2 => flattenLoop c vs acc2
      | Except.error e => Except.error e

/-- Transcription::flattenConstraints (CasOCTranscription.h:366-506): runs
the traversal and raises the internal-consistency error unless the final
flat index equals `m_numConstraints`. -/
def flattenConstraints (D : CDims) (numConstraints : ℕ)
    (c : ConstraintsQ) : Except String (List ℚ) :=
  match flattenLoop c (constraintVisits D) [] with
  | Except.ok flat =>
      if flat.length = numConstraints then Except.ok flat
      else
        Except.error
          "Internal error: final value of the index into the flattened constraints should be equal to the number of constraints."
  | Except.error e => Except.error e

/-- The zero-filled aggregate `expandConstraints` allocates
(CasOCTranscription.h:513-539). -/
def expandInit (D : CDims) : ConstraintsQ where
  initial_time := zeroMat 1 D.numParameterConstraints
  final_time := zeroMat 1 D.numParameterConstraints
  parameters := zeroMat D.numParameterConstraints (D.numMeshPoints - 1)
  defects := zeroMat D.numDefectsPerMeshInterval (D.numMeshPoints - 1)
  multibody_residuals := zeroMat D.numMultibodyResiduals D.numGridPoints
  auxiliary_residuals := zeroMat D.numAuxiliaryResiduals D.numGridPoints
  kinematic := zeroMat D.numKinematicConstraintEquations D.numMeshPoints
  endpoint := D.endpointNumOutputs.map (fun n => zeroMat n 1)
  path := D.pathInfoSizes.map (fun n => zeroMat n D.numPathConstraintPoints)
  interp_controls := zeroMat D.numControls D.numPointsForInterpControls

/-- One `copyColumn` of the expand direction
(CasOCTranscription.h:542-549): writes the next rows-sized slice of the
flat vector into the addressed column and advances the flat index; both a
column index outside the output matrix and a slice reaching past the end
of the flat vector are casadi out-of-range errors. -/
def expandStep (flat : List ℚ) (st : ℕ × ConstraintsQ) (v : CSlot × ℕ) :
    Except String (ℕ × ConstraintsQ) :=
  if (st.2.get v.1).rows = 0 then Except.ok st
  else if v.2 < (st.2.get v.1).cols then
    if st.1 + (st.2.get v.1).rows ≤ flat.length then
      Except.ok (st.1 + (st.2.get v.1).rows,
        st.2.setCol v.1 v.2 (fun i => flat.getD (st.1 + i) 0))
    else Except.error "slice out of range"
  else Except.error "column index out of range"

/-- The expand traversal loop. -/
def expandLoop (flat : List ℚ) :
    List (CSlot × ℕ) → ℕ × ConstraintsQ →
      Except String (ℕ × ConstraintsQ)
  | [], st => Except.ok st
  | v :: vs, st =>
      match expandStep flat st v with
      | Except.ok st2 => expandLoop flat vs st2
      | Except.error e => Except.error e

/-- Transcription::expandConstraints (CasOCTranscription.h:509-628):
allocates the declared shapes, runs the traversal, and raises the
internal-consistency error unless the final flat index equals
`m_numConstraints`. -/
def expandConstraints (D : CDims) (numConstraints : ℕ) (flat : List ℚ) :
    Except String ConstraintsQ :=
  match expandLoop flat (constraintVisits D) (0, expandInit D) with
  | Except.ok st =>
      if st.1 = numConstraints then Except.ok st.2
      else
        Except.error
          "Internal error: final value of the index into the flattened constraints should be equal to the number of constraints."
  | Except.error e => Except.error e

/-- The total number of scalar constraints the traversal visits (the value
`m_numConstraints` must take for the final checks to pass). -/
def totalConstraintRows (D : CDims) : ℕ :=
  ((constraintVisits D).map (fun v => declaredRows D v.1)).sum

/-- The aggregate has exactly the shapes `expandConstraints` declares
(CasOCTranscription.h:513-539). -/
def ConstraintsQ.WellShaped (D : CDims) (c : ConstraintsQ) : Prop :=
  c.initial_time.rows = 1 ∧
  c.initial_time.cols = D.numParameterConstraints ∧
  c.final_time.rows = 1 ∧
  c.final_time.cols = D.numParameterConstraints ∧
  c.parameters.rows = D.numParameterConstraints ∧
  c.parameters.cols = D.numMeshPoints - 1 ∧
  c.defects.rows = D.numDefectsPerMeshInterval ∧
  c.defects.cols = D.numMeshPoints - 1 ∧
  c.multibody_residuals.rows = D.numMultibodyResiduals ∧
  c.multibody_residuals.cols = D.numGridPoints ∧
  c.auxiliary_residuals.rows = D.numAuxiliaryResiduals ∧
  c.auxiliary_residuals.cols = D.numGridPoints ∧
  c.kinematic.rows = D.numKinematicConstraintEquations ∧
  c.kinematic.cols = D.numMeshPoints ∧
  c.endpoint.length = D.endpointNumOutputs.length ∧
  (∀ i < D.endpointNumOutputs.length,
    (c.endpoint.getD i (zeroMat 0 0)).rows = D.endpointNumOutputs.getD i 0 ∧
    (c.endpoint.getD i (zeroMat 0 0)).cols = 1) ∧
  c.path.length = D.pathInfoSizes.length ∧
  (∀ i < D.pathInfoSizes.length,
    (c.path.getD i (zeroMat 0 0)).rows = D.pathInfoSizes.getD i 0 ∧
    (c.path.getD i (zeroMat 0 0)).cols = D.numPathConstraintPoints) ∧
  c.interp_controls.rows = D.numControls ∧
  c.interp_controls.cols = D.numPointsForInterpControls

instance (D : CDims) (c : ConstraintsQ) :
    Decidable (c.WellShaped D) := by
  unfold ConstraintsQ.WellShaped
  infer_instance

/-- Slot-by-slot equality of two aggregates on the registered slots. -/
def ConstraintsQ.EqvDecl (D : CDims) (a b : ConstraintsQ) : Prop :=
  a.endpoint.length = b.endpoint.length ∧
  a.path.length = b.path.length ∧
  ∀ s, SlotOK D s → (a.get s).EqOn (b.get s)

/-- The C2 counterexample dimensions: one mesh interval with
numPointsPerMeshInterval = 3 (N = 2, as for Legendre-Gauss-Radau of
degree 2), 2 parameter constraints, 1 defect row, and nothing else. -/
def c2Dims : CDims where
  numMeshIntervals := 1
  numPointsPerMeshInterval := 3
  numDefectsPerMeshInterval := 1
  numMultibodyResiduals := 0
  numAuxiliaryResiduals := 0
  numKinematicConstraintEquations := 0
  numParameterConstraints := 2
  numPathConstraintPoints := 0
  numControls := 0
  endpointNumOutputs := []
  pathInfoSizes := []
  numPointsForInterpControls := 0
  enforcePathConstraintMidpoints := false

/-- The C2 counterexample aggregate: the zero aggregate of the declared
shapes. -/
def c2Aggregate : ConstraintsQ := expandInit c2Dims

/-- An indexed slot refers into the aggregate's own endpoint/path lists. -/
def ConstraintsQ.SlotInBounds (c : ConstraintsQ) : CSlot → Prop
  | CSlot.endp i => i < c.endpoint.length
  | CSlot.cpath i => i < c.path.length
  | _ => True

/-- The expand output's invariant: registered lists have the declared
lengths and every registered slot has the declared shape. -/
def OutShaped (D : CDims) (out : ConstraintsQ) : Prop :=
  out.endpoint.length = D.endpointNumOutputs.length ∧
  out.path.length = D.pathInfoSizes.length ∧
  ∀ s, SlotOK D s → (out.get s).rows = declaredRows D s ∧
    (out.get s).cols = declaredCols D s

/-- The C2 witness dimensions: one mesh interval with
numPointsPerMeshInterval = 2 (the trapezoidal layout), one parameter
constraint, one defect row, path points at both mesh points. -/
def c3Dims : CDims where
  numMeshIntervals := 1
  numPointsPerMeshInterval := 2
  numDefectsPerMeshInterval := 1
  numMultibodyResiduals := 0
  numAuxiliaryResiduals := 0
  numKinematicConstraintEquations := 0
  numParameterConstraints := 1
  numPathConstraintPoints := 2
  numControls := 0
  endpointNumOutputs := []
  pathInfoSizes := []
  numPointsForInterpControls := 0
  enforcePathConstraintMidpoints := false

/-- The C2 witness aggregate: the zero aggregate of the declared shapes. -/
def c3Aggregate : ConstraintsQ := expandInit c3Dims

theorem Mat.col_length {α : Type} (A : Mat α) (j : ℕ) :
    (A.col j).length = A.rows := by
  simp [Mat.col]

/-- Claim C3: for every per-kind variable assignment and every
(dilate, shift) pair with dilate non-zero for every kind, the scaling
transforms are mutually inverse: `unscaleVariables (scaleVariables v) = v`
entry for entry, the scale/shift column vectors being broadcast across all
columns of each kind. -/
theorem unscaleVariables_scaleVariables_id
    (shiftv dilatev : Var → ℕ → ℚ) (vars : Var → Mat ℚ)
    (hdilate : ∀ key i, dilatev key i ≠ 0) :
    ∀ key, (unscaleVariables shiftv dilatev
      (scaleVariables shiftv dilatev vars) key).EqOn (vars key) := by
  intro key
  refine ⟨rfl, rfl, ?_⟩
  intro i _ j _
  simp only [unscaleVariables, scaleVariables, Mat.EqOn]
  rw [div_mul_cancel₀ _ (hdilate key i)]
  ring

/-- Witness for C3 at a concrete assignment: one 1×1 states matrix holding
3, shift 1, dilate 2; the round trip recovers 3. -/
theorem unscaleVariables_scaleVariables_id_witness :
    (∀ key i, ((fun (_ : Var) (_ : ℕ) => (2 : ℚ)) key i) ≠ 0) ∧
    (unscaleVariables (fun _ _ => (1 : ℚ)) (fun _ _ => (2 : ℚ))
      (scaleVariables (fun _ _ => (1 : ℚ)) (fun _ _ => (2 : ℚ))
        (fun _ => ⟨1, 1, fun _ _ => (3 : ℚ)⟩)) states).EqOn
      ((fun (_ : Var) => (⟨1, 1, fun _ _ => (3 : ℚ)⟩ : Mat ℚ)) states) := by
  refine ⟨fun _ _ => by norm_num, ?_⟩
  exact unscaleVariables_scaleVariables_id _ _ _ (fun _ _ => by norm_num) states

/-- Claim C4: for every kind, sub-block and bounds pair, `setVariableScaling`
writes, when scaling is enabled: (1, 0) if the bound width `upper - lower`
is infinite or NaN; (1, upper) if the width is zero; and
`(upper - lower, -0.5 * (upper + lower))` (finite values) otherwise.  When
scaling is disabled it writes (1, 0) regardless of the bounds content. -/
theorem setVariableScaling_values (enabled : Bool)
    (st : TranscriptionBuffers) (key : Var)
    (rowIndices columnIndices : List ℕ) (b : Bounds) (i j : ℕ)
    (hi : i ∈ rowIndices) (hj : j ∈ columnIndices) :
    (enabled = false →
      ((setVariableScaling enabled st key rowIndices columnIndices b).scale
          key).entry i j = FpVal.fin 1 ∧
      ((setVariableScaling enabled st key rowIndices columnIndices b).shift
          key).entry i j = FpVal.fin 0) ∧
    (enabled = true →
      ((FpVal.sub b.upper b.lower).isinf ∨ (FpVal.sub b.upper b.lower).isnan →
        ((setVariableScaling enabled st key rowIndices columnIndices b).scale
            key).entry i j = FpVal.fin 1 ∧
        ((setVariableScaling enabled st key rowIndices columnIndices b).shift
            key).entry i j = FpVal.fin 0) ∧
      (FpVal.sub b.upper b.lower = FpVal.fin 0 →
        ((setVariableScaling enabled st key rowIndices columnIndices b).scale
            key).entry i j = FpVal.fin 1 ∧
        ((setVariableScaling enabled st key rowIndices columnIndices b).shift
            key).entry i j = b.upper) ∧
      (¬(FpVal.sub b.upper b.lower).isinf = true →
        ¬(FpVal.sub b.upper b.lower).isnan = true →
        FpVal.sub b.upper b.lower ≠ FpVal.fin 0 →
        ∃ u l : ℚ, b.upper = FpVal.fin u ∧ b.lower = FpVal.fin l ∧
          ((setVariableScaling enabled st key rowIndices columnIndices
              b).scale key).entry i j = FpVal.fin (u - l) ∧
          ((setVariableScaling enabled st key rowIndices columnIndices
              b).shift key).entry i j = FpVal.fin (-(1/2) * (u + l)))) := by
  constructor
  · rintro rfl
    simp [setVariableScaling, updateKind, writeSubBlock, hi, hj]
  · rintro rfl
    refine ⟨?_, ?_, ?_⟩
    · intro hdeg
      have hcond : ((FpVal.sub b.upper b.lower).isinf ||
          (FpVal.sub b.upper b.lower).isnan) = true := by
        rcases hdeg with h | h <;> simp [h]
      simp [setVariableScaling, updateKind, writeSubBlock, hi, hj, hcond]
    · intro hzero
      have hnotdeg : ((FpVal.sub b.upper b.lower).isinf ||
          (FpVal.sub b.upper b.lower).isnan) = false := by
        rw [hzero]; rfl
      have heq : (FpVal.sub b.upper b.lower).eqZero = true := by
        rw [hzero]; rfl
      simp [setVariableScaling, updateKind, writeSubBlock, hi, hj, hnotdeg,
        heq]
    · intro hinf hnan hne
      obtain ⟨u, hu⟩ : ∃ u, b.upper = FpVal.fin u := by
        cases hb : b.upper <;> cases hb2 : b.lower <;>
          simp_all [FpVal.sub, FpVal.isinf, FpVal.isnan]
      obtain ⟨l, hl⟩ : ∃ l, b.lower = FpVal.fin l := by
        cases hb : b.upper <;> cases hb2 : b.lower <;>
          simp_all [FpVal.sub, FpVal.isinf, FpVal.isnan]
      refine ⟨u, l, hu, hl, ?_⟩
      have hul : u - l ≠ 0 := by
        intro h0
        apply hne
        simp [hu, hl, FpVal.sub, h0]
      have h1 : (FpVal.fin (u - l)).isinf = false := rfl
      have h2 : (FpVal.fin (u - l)).isnan = false := rfl
      have h3 : (FpVal.fin (u - l)).eqZero = false := by
        simp [FpVal.eqZero, hul]
      constructor
      · simp [setVariableScaling, updateKind, writeSubBlock, hi, hj, hu, hl,
          FpVal.sub, FpVal.add, FpVal.mulQ, h1, h2, h3]
      · simp [setVariableScaling, updateKind, writeSubBlock, hi, hj, hu, hl,
          FpVal.sub, FpVal.add, FpVal.mulQ, h1, h2, h3]

/-- Witness for C4: with scaling enabled and bounds (0, 2), the entry (0,0)
of the addressed sub-block receives dilate 2 and shift -1. -/
theorem setVariableScaling_values_witness :
    ∃ u l : ℚ,
      (⟨FpVal.fin 0, FpVal.fin 2⟩ : Bounds).upper = FpVal.fin u ∧
      (⟨FpVal.fin 0, FpVal.fin 2⟩ : Bounds).lower = FpVal.fin l ∧
      ((setVariableScaling true
          ⟨fun _ => ⟨1, 1, fun _ _ => FpVal.nan⟩,
           fun _ => ⟨1, 1, fun _ _ => FpVal.nan⟩,
           fun _ => ⟨1, 1, fun _ _ => FpVal.nan⟩,
           fun _ => ⟨1, 1, fun _ _ => FpVal.nan⟩,
           fun _ => ⟨1, 1, fun _ _ => (0 : ℚ)⟩⟩
          states [0] [0] ⟨FpVal.fin 0, FpVal.fin 2⟩).scale
            states).entry 0 0 = FpVal.fin (u - l) ∧
      ((setVariableScaling true
          ⟨fun _ => ⟨1, 1, fun _ _ => FpVal.nan⟩,
           fun _ => ⟨1, 1, fun _ _ => FpVal.nan⟩,
           fun _ => ⟨1, 1, fun _ _ => FpVal.nan⟩,
           fun _ => ⟨1, 1, fun _ _ => FpVal.nan⟩,
           fun _ => ⟨1, 1, fun _ _ => (0 : ℚ)⟩⟩
          states [0] [0] ⟨FpVal.fin 0, FpVal.fin 2⟩).shift
            states).entry 0 0 = FpVal.fin (-(1/2) * (u + l)) :=
  ((setVariableScaling_values true _ states [0] [0]
      ⟨FpVal.fin 0, FpVal.fin 2⟩ 0 0 (by decide) (by decide)).2 rfl).2.2
    (by simp [FpVal.sub, FpVal.isinf]) (by simp [FpVal.sub, FpVal.isnan])
    (by norm_num [FpVal.sub])

/-- Claim C10: `setVariableBounds` writes exactly the addressed sub-block of
the kind's lower and upper bound buffers (the set pair when the bounds are
set, `-inf`/`+inf` when unset); every entry outside the addressed sub-block,
every other kind's bound buffers, and all scale/shift and variable buffers
are unchanged. -/
theorem setVariableBounds_frame (st : TranscriptionBuffers) (var : Var)
    (rowIndices columnIndices : List ℕ) (b : Bounds) :
    (∀ i ∈ rowIndices, ∀ j ∈ columnIndices,
      ((setVariableBounds st var rowIndices columnIndices b).lowerBounds
          var).entry i j = (if b.isSet then b.lower else FpVal.ninf) ∧
      ((setVariableBounds st var rowIndices columnIndices b).upperBounds
          var).entry i j = (if b.isSet then b.upper else FpVal.pinf)) ∧
    (∀ i j, ¬(i ∈ rowIndices ∧ j ∈ columnIndices) →
      ((setVariableBounds st var rowIndices columnIndices b).lowerBounds
          var).entry i j = (st.lowerBounds var).entry i j ∧
      ((setVariableBounds st var rowIndices columnIndices b).upperBounds
          var).entry i j = (st.upperBounds var).entry i j) ∧
    (∀ k, k ≠ var →
      (setVariableBounds st var rowIndices columnIndices b).lowerBounds k =
        st.lowerBounds k ∧
      (setVariableBounds st var rowIndices columnIndices b).upperBounds k =
        st.upperBounds k) ∧
    (setVariableBounds st var rowIndices columnIndices b).scale = st.scale ∧
    (setVariableBounds st var rowIndices columnIndices b).shift = st.shift ∧
    (setVariableBounds st var rowIndices columnIndices b).scaledVars =
      st.scaledVars := by
  refine ⟨?_, ?_, ?_, ?_, ?_, ?_⟩
  · intro i hi j hj
    by_cases hset : b.isSet <;>
      simp [setVariableBounds, updateKind, writeSubBlock, hi, hj, hset]
  · intro i j hout
    by_cases hset : b.isSet <;>
      simp [setVariableBounds, updateKind, writeSubBlock, hout, hset]
  · intro k hk
    by_cases hset : b.isSet <;>
      simp [setVariableBounds, updateKind, writeSubBlock, hk, hset]
  · by_cases hset : b.isSet <;> simp [setVariableBounds, hset]
  · by_cases hset : b.isSet <;> simp [setVariableBounds, hset]
  · by_cases hset : b.isSet <;> simp [setVariableBounds, hset]

/-- Witness for C10 at a concrete state: writing set bounds (5, 7) into the
(0,0) cell of the states bound buffers stores 5 and 7 there and leaves the
(1,1) cell at its old value. -/
theorem setVariableBounds_frame_witness :
    ((setVariableBounds
        ⟨fun _ => ⟨2, 2, fun _ _ => FpVal.fin 9⟩,
         fun _ => ⟨2, 2, fun _ _ => FpVal.fin 9⟩,
         fun _ => ⟨2, 2, fun _ _ => FpVal.fin 9⟩,
         fun _ => ⟨2, 2, fun _ _ => FpVal.fin 9⟩,
         fun _ => ⟨2, 2, fun _ _ => (0 : ℚ)⟩⟩
        states [0] [0] ⟨FpVal.fin 5, FpVal.fin 7⟩).lowerBounds states).entry
      0 0 =
      (if (⟨FpVal.fin 5, FpVal.fin 7⟩ : Bounds).isSet then FpVal.fin 5
        else FpVal.ninf) ∧
    ((setVariableBounds
        ⟨fun _ => ⟨2, 2, fun _ _ => FpVal.fin 9⟩,
         fun _ => ⟨2, 2, fun _ _ => FpVal.fin 9⟩,
         fun _ => ⟨2, 2, fun _ _ => FpVal.fin 9⟩,
         fun _ => ⟨2, 2, fun _ _ => FpVal.fin 9⟩,
         fun _ => ⟨2, 2, fun _ _ => (0 : ℚ)⟩⟩
        states [0] [0] ⟨FpVal.fin 5, FpVal.fin 7⟩).lowerBounds states).entry
      1 1 =
      ((fun (_ : Var) => (⟨2, 2, fun _ _ => FpVal.fin 9⟩ : Mat FpVal))
          states).entry 1 1 := by
  constructor
  · exact (((setVariableBounds_frame _ states [0] [0]
      ⟨FpVal.fin 5, FpVal.fin 7⟩).1) 0 (by decide) 0 (by decide)).1
  · exact (((setVariableBounds_frame _ states [0] [0]
      ⟨FpVal.fin 5, FpVal.fin 7⟩).2.1) 1 1 (by decide)).1

/-- Claim C1 (refutation): the round trip
`expandVariables (flattenVariablesDM v) = v` FAILS.  `flattenVariablesDM`
interleaves the kinds per mesh interval (initial-time, final-time, states,
controls for each interval, then the last grid point) while
`expandVariables` slices the flat vector in contiguous kind-major blocks
following `getSortedVarKeys`; the two orderings disagree.  At the concrete
input above the flat vector is [1, 2, 4, 5, 3, 6], so the expanded
initial-time row is [1, 2, 4]: entry (0,2) comes back as 4 instead of 3. -/
theorem flattenExpandVariables_mismatch :
    flattenVariablesDM 1 3 3 c1Vars = [1, 2, 4, 5, 3, 6] ∧
    (lookupVar (expandVariables c1Shapes (flattenVariablesDM 1 3 3 c1Vars))
        initial_time).entry 0 2 = 4 ∧
    (c1Vars initial_time).entry 0 2 = 3 ∧ (4 : ℚ) ≠ 3 := by
  refine ⟨by rfl, by rfl, by rfl, by norm_num⟩

/-- Claim C8: constructing a Trapezoidal transcription with kinematic
constraint-derivative enforcement requested fails with a descriptive
configuration error and no variable buffers are created (no
`createVariablesAndSetBounds` call record is produced); without that option
it succeeds, allocating variables with 2 points per mesh interval and
numStates defects per mesh interval. -/
theorem trapezoidalConstructor_spec (enforceConstraintDerivatives : Bool)
    (numStates : ℕ) (mesh : List ℚ) :
    (enforceConstraintDerivatives = true →
      trapezoidalConstructor enforceConstraintDerivatives numStates mesh =
        Except.error
          "Enforcing kinematic constraint derivatives not supported with trapezoidal transcription.") ∧
    (enforceConstraintDerivatives = false →
      trapezoidalConstructor enforceConstraintDerivatives numStates mesh =
        Except.ok
          { numDefectsPerMeshInterval := numStates
            numPointsPerMeshInterval := 2
            mesh := mesh
            controlPoints := mesh.map (fun _ => true) }) := by
  constructor
  · rintro rfl; rfl
  · rintro rfl; rfl

/-- Witness for C8 at a concrete problem: with the option enabled the
constructor errors; with it disabled it records 4 defects per interval and
2 points per interval on the mesh [0, 1/2, 1]. -/
theorem trapezoidalConstructor_spec_witness :
    trapezoidalConstructor true 4 [0, 1/2, 1] =
      Except.error
        "Enforcing kinematic constraint derivatives not supported with trapezoidal transcription." ∧
    trapezoidalConstructor false 4 [0, 1/2, 1] =
      Except.ok
        { numDefectsPerMeshInterval := 4
          numPointsPerMeshInterval := 2
          mesh := [0, 1/2, 1]
          controlPoints := [true, true, true] } := by
  constructor
  · exact (trapezoidalConstructor_spec true 4 [0, 1/2, 1]).1 rfl
  · have h := (trapezoidalConstructor_spec false 4 [0, 1/2, 1]).2 rfl
    rw [h]; rfl

theorem expandVariables_fold_keys (keys : List Var)
    (scaledVarsShape : Var → ℕ × ℕ) (x : List ℚ)
    (acc : List (Var × Mat ℚ)) (off : ℕ) :
    ((keys.foldl
      (fun acc key =>
        let rc := scaledVarsShape key
        (acc.1 ++ [(key,
            reshapeColMajor ((x.drop acc.2).take (rc.1 * rc.2)) rc.1 rc.2)],
          acc.2 + rc.1 * rc.2))
      (acc, off)).1).map Prod.fst = acc.map Prod.fst ++ keys := by
  induction keys generalizing acc off with
  | nil => simp
  | cons k ks ih => simp [List.foldl_cons, ih]

/-- Claim C9: for every flat input vector, `expandVariables` returns a map
containing exactly the seven kinds initial_time, final_time, parameters,
states, controls, multipliers, derivatives, in that canonical order;
projection_states and slacks are never present, even though the
Legendre-Gauss variable order contains projection_states and slacks
entries. -/
theorem expandVariables_keys_canonical (scaledVarsShape : Var → ℕ × ℕ)
    (x : List ℚ) (numMeshIntervals numPointsPerMeshInterval degree
    numGridPoints : ℕ) (interp : Bool) :
    (expandVariables scaledVarsShape x).map Prod.fst =
      [initial_time, final_time, parameters, states, controls, multipliers,
        derivatives] ∧
    projection_states ∈
      (getVariableOrderLG numMeshIntervals numPointsPerMeshInterval degree
        numGridPoints interp).map Prod.fst ∧
    slacks ∈
      (getVariableOrderLG numMeshIntervals numPointsPerMeshInterval degree
        numGridPoints interp).map Prod.fst ∧
    projection_states ∉ (expandVariables scaledVarsShape x).map Prod.fst ∧
    slacks ∉ (expandVariables scaledVarsShape x).map Prod.fst := by
  have hkeys : (expandVariables scaledVarsShape x).map Prod.fst =
      getSortedVarKeys := by
    have h := expandVariables_fold_keys getSortedVarKeys scaledVarsShape x
      [] 0
    simpa [expandVariables] using h
  refine ⟨hkeys, ?_, ?_, ?_, ?_⟩
  · simp [getVariableOrderLG]
  · simp [getVariableOrderLG]
  · rw [hkeys]; decide
  · rw [hkeys]; decide

theorem list_sum_map_range (f : ℕ → ℚ) (n : ℕ) :
    ((List.range n).map f).sum = ∑ j ∈ Finset.range n, f j := by
  induction n with
  | zero => simp
  | succ k ih =>
      rw [List.range_succ, List.map_append, List.sum_append,
        Finset.sum_range_succ, ih]
      simp

theorem quad_sum_generic (degree numMeshIntervals stride : ℕ)
    (mesh w : ℕ → ℚ) (G : ℕ)
    (htarget : ∀ p ∈ Finset.range numMeshIntervals ×ˢ Finset.range degree,
      p.1 * stride + (p.2 + 1) < G) :
    (∑ j ∈ Finset.range G,
      ∑ p ∈ Finset.range numMeshIntervals ×ˢ Finset.range degree,
        if p.1 * stride + (p.2 + 1) = j then
          w p.2 * (mesh (p.1 + 1) - mesh p.1)
        else 0) =
    (∑ d ∈ Finset.range degree, w d) * (mesh numMeshIntervals - mesh 0) := by
  rw [Finset.sum_comm]
  have hinner : ∀ p ∈ Finset.range numMeshIntervals ×ˢ Finset.range degree,
      (∑ j ∈ Finset.range G,
        if p.1 * stride + (p.2 + 1) = j then
          w p.2 * (mesh (p.1 + 1) - mesh p.1)
        else 0) = w p.2 * (mesh (p.1 + 1) - mesh p.1) := by
    intro p hp
    rw [Finset.sum_ite_eq]
    simp [Finset.mem_range.mpr (htarget p hp)]
  rw [Finset.sum_congr rfl hinner, Finset.sum_product]
  have hswap : ∀ imesh ∈ Finset.range numMeshIntervals,
      (∑ d ∈ Finset.range degree, w d * (mesh (imesh + 1) - mesh imesh)) =
      (∑ d ∈ Finset.range degree, w d) * (mesh (imesh + 1) - mesh imesh) := by
    intro imesh _
    rw [Finset.sum_mul]
  rw [Finset.sum_congr rfl hswap, ← Finset.mul_sum, Finset.sum_range_sub]

/-- Claim C5 counterexample: for the Legendre-Gauss-Radau scheme with
degree 1 (per-interval weight vector [1]) on the mesh [0, 1] (one mesh
interval, two mesh points, two grid points), the quadrature coefficient
vector is [0, 1]: its entries sum to 1, not to the number of mesh points
(2), and its entry at the last grid point — a mesh point — is 1, not 0. -/
theorem lgrQuadCoefficients_sum_ne_numMeshPoints :
    lgrQuadCoefficientsImpl 1 1 unitMeshTwoPoints lgrWeightsDegreeOne =
      [0, 1] ∧
    (lgrQuadCoefficientsImpl 1 1 unitMeshTwoPoints lgrWeightsDegreeOne).sum
      = 1 ∧
    (1 : ℚ) ≠ 2 ∧
    lgrQuadCoefficients 1 1 unitMeshTwoPoints lgrWeightsDegreeOne 1 ≠ 0 := by
  have hentry0 :
      lgrQuadCoefficients 1 1 unitMeshTwoPoints lgrWeightsDegreeOne 0 = 0 := by
    simp [lgrQuadCoefficients, Finset.sum_product, unitMeshTwoPoints,
      lgrWeightsDegreeOne]
  have hentry1 :
      lgrQuadCoefficients 1 1 unitMeshTwoPoints lgrWeightsDegreeOne 1 = 1 := by
    simp [lgrQuadCoefficients, Finset.sum_product, unitMeshTwoPoints,
      lgrWeightsDegreeOne]
  have himpl :
      lgrQuadCoefficientsImpl 1 1 unitMeshTwoPoints lgrWeightsDegreeOne =
        [0, 1] := by
    simp [lgrQuadCoefficientsImpl, List.range_succ, hentry0, hentry1]
  refine ⟨himpl, by rw [himpl]; norm_num, by norm_num, by rw [hentry1]; norm_num⟩

/-- Claim C5 (amended): for every mesh and per-interval weight vector, both
collocation schemes return a quadrature coefficient vector of length
numGridPoints; for Legendre-Gauss every entry whose index is a multiple of
degree + 1 — in particular every mesh (knot) point — is zero; and for both
schemes the entries sum to (sum of the per-interval weights) multiplied by
the mesh span `mesh(M) - mesh(0)` (the normalized trajectory duration for
a [0,1] mesh with unit-sum weights), not to the number of mesh points. -/
theorem quadratureCoefficients_length_zero_sum (degree numMeshIntervals : ℕ)
    (mesh w : ℕ → ℚ) :
    (lgQuadCoefficientsImpl degree numMeshIntervals mesh w).length =
      numMeshIntervals * (degree + 1) + 1 ∧
    (∀ j, (degree + 1) ∣ j →
      lgQuadCoefficients degree numMeshIntervals mesh w j = 0) ∧
    (lgQuadCoefficientsImpl degree numMeshIntervals mesh w).sum =
      (∑ d ∈ Finset.range degree, w d) *
        (mesh numMeshIntervals - mesh 0) ∧
    (lgrQuadCoefficientsImpl degree numMeshIntervals mesh w).length =
      numMeshIntervals * degree + 1 ∧
    (lgrQuadCoefficientsImpl degree numMeshIntervals mesh w).sum =
      (∑ d ∈ Finset.range degree, w d) *
        (mesh numMeshIntervals - mesh 0) := by
  refine ⟨by simp [lgQuadCoefficientsImpl], ?_, ?_, ?_, ?_⟩
  · intro j hdvd
    apply Finset.sum_eq_zero
    intro p hp
    rw [Finset.mem_product, Finset.mem_range, Finset.mem_range] at hp
    rw [if_neg]
    intro heq
    obtain ⟨k, rfl⟩ := hdvd
    have hmod : (p.1 * (degree + 1) + (p.2 + 1)) % (degree + 1) =
        (p.2 + 1) % (degree + 1) := by
      rw [Nat.mul_comm]
      exact Nat.mul_add_mod (degree + 1) p.1 (p.2 + 1)
    have hsmall : (p.2 + 1) % (degree + 1) = p.2 + 1 :=
      Nat.mod_eq_of_lt (by omega)
    have hzero : ((degree + 1) * k) % (degree + 1) = 0 :=
      Nat.mul_mod_right (degree + 1) k
    rw [heq, hzero] at hmod
    omega
  · rw [lgQuadCoefficientsImpl, list_sum_map_range]
    apply quad_sum_generic
    intro p hp
    rw [Finset.mem_product, Finset.mem_range, Finset.mem_range] at hp
    have h1 : p.1 + 1 ≤ numMeshIntervals := hp.1
    have h2 : p.1 * (degree + 1) + (p.2 + 1) < (p.1 + 1) * (degree + 1) := by
      have : p.2 + 1 < degree + 1 := by omega
      calc p.1 * (degree + 1) + (p.2 + 1)
          < p.1 * (degree + 1) + (degree + 1) := by omega
        _ = (p.1 + 1) * (degree + 1) := by ring
    have h3 : (p.1 + 1) * (degree + 1) ≤ numMeshIntervals * (degree + 1) :=
      Nat.mul_le_mul_right _ h1
    omega
  · simp [lgrQuadCoefficientsImpl]
  · rw [lgrQuadCoefficientsImpl, list_sum_map_range]
    apply quad_sum_generic
    intro p hp
    rw [Finset.mem_product, Finset.mem_range, Finset.mem_range] at hp
    have h1 : p.1 + 1 ≤ numMeshIntervals := hp.1
    have h2 : p.1 * degree + (p.2 + 1) ≤ (p.1 + 1) * degree := by
      have : p.2 + 1 ≤ degree := by omega
      calc p.1 * degree + (p.2 + 1) ≤ p.1 * degree + degree := by omega
        _ = (p.1 + 1) * degree := by ring
    have h3 : (p.1 + 1) * degree ≤ numMeshIntervals * degree :=
      Nat.mul_le_mul_right _ h1
    omega

theorem strideFold_eval (s M j : ℕ) :
    ((List.range M).foldl (fun f i => Function.update f (i * s) (1 : ℚ))
      (fun _ => (0 : ℚ))) j = if ∃ i < M, j = i * s then 1 else 0 := by
  induction M with
  | zero => simp
  | succ m ih =>
      rw [List.range_succ, List.foldl_append, List.foldl_cons, List.foldl_nil]
      by_cases hj : j = m * s
      · subst hj
        rw [Function.update_same, if_pos ⟨m, Nat.lt_succ_self m, rfl⟩]
      · rw [Function.update_noteq hj, ih]
        by_cases hex : ∃ i < m, j = i * s
        · obtain ⟨i, hi, hieq⟩ := hex
          rw [if_pos ⟨i, hi, hieq⟩, if_pos ⟨i, Nat.lt_succ_of_lt hi, hieq⟩]
        · rw [if_neg hex, if_neg]
          rintro ⟨i, hi, hieq⟩
          rcases Nat.lt_succ_iff_lt_or_eq.mp hi with hi2 | rfl
          · exact hex ⟨i, hi2, hieq⟩
          · exact hj hieq

theorem strideMaskFun_eval (s M j : ℕ) :
    Function.update
      ((List.range M).foldl (fun f i => Function.update f (i * s) (1 : ℚ))
        (fun _ => (0 : ℚ))) (M * s) (1 : ℚ) j =
      if j = M * s ∨ ∃ i < M, j = i * s then 1 else 0 := by
  by_cases hj : j = M * s
  · subst hj
    rw [Function.update_same, if_pos (Or.inl rfl)]
  · rw [Function.update_noteq hj, strideFold_eval]
    by_cases hex : ∃ i < M, j = i * s
    · rw [if_pos hex, if_pos (Or.inr hex)]
    · rw [if_neg hex, if_neg]
      rintro (h | h)
      · exact hj h
      · exact hex h

theorem getD_map_range (f : ℕ → ℚ) (n j : ℕ) (hj : j < n) :
    (((List.range n).map f).getD j 0) = f j := by
  rw [List.getD_eq_getElem?_getD, List.getElem?_map, List.getElem?_range hj]
  rfl

theorem strideMask_sum (s M : ℕ) (hs : 1 ≤ s) (fn : ℕ → ℚ)
    (hfn : ∀ j, fn j = if j = M * s ∨ ∃ i < M, j = i * s then 1 else 0) :
    ((List.range (M * s + 1)).map fn).sum = (M : ℚ) + 1 := by
  rw [list_sum_map_range]
  have hmemiff : ∀ j,
      j ∈ insert (M * s) ((Finset.range M).image (fun i => i * s)) ↔
      (j = M * s ∨ ∃ i < M, j = i * s) := by
    intro j
    simp only [Finset.mem_insert, Finset.mem_image, Finset.mem_range]
    constructor
    · rintro (h | ⟨i, hi, hieq⟩)
      · exact Or.inl h
      · exact Or.inr ⟨i, hi, hieq.symm⟩
    · rintro (h | ⟨i, hi, hieq⟩)
      · exact Or.inl h
      · exact Or.inr ⟨i, hi, hieq.symm⟩
  have hcond : ∀ j, fn j =
      if j ∈ insert (M * s) ((Finset.range M).image (fun i => i * s)) then
        (1 : ℚ) else 0 := by
    intro j
    rw [hfn j]
    by_cases h2 : j = M * s ∨ ∃ i < M, j = i * s
    · rw [if_pos h2, if_pos ((hmemiff j).mpr h2)]
    · rw [if_neg h2, if_neg (fun hmem => h2 ((hmemiff j).mp hmem))]
  rw [Finset.sum_congr rfl (fun j _ => hcond j), Finset.sum_ite_mem,
    Finset.sum_const]
  have hsub : insert (M * s) ((Finset.range M).image (fun i => i * s)) ⊆
      Finset.range (M * s + 1) := by
    intro j hj
    simp only [Finset.mem_insert, Finset.mem_image, Finset.mem_range] at hj
    rcases hj with rfl | ⟨i, hi, rfl⟩
    · exact Finset.mem_range.mpr (Nat.lt_succ_self _)
    · exact Finset.mem_range.mpr
        (Nat.lt_succ_of_le (Nat.mul_le_mul_right s (Nat.le_of_lt hi)))
  rw [Finset.inter_eq_right.mpr hsub]
  have hnot : M * s ∉ (Finset.range M).image (fun i => i * s) := by
    simp only [Finset.mem_image, Finset.mem_range]
    rintro ⟨i, hi, hieq⟩
    have : i = M := Nat.eq_of_mul_eq_mul_right (by omega) hieq
    omega
  rw [Finset.card_insert_of_not_mem hnot,
    Finset.card_image_of_injective _
      (mul_left_injective₀ (show s ≠ 0 by omega)),
    Finset.card_range, nsmul_eq_mul]
  push_cast
  ring

theorem strideMask_mem (G : ℕ) (fn : ℕ → ℚ) (cond : ℕ → Prop)
    [DecidablePred cond] (hfn : ∀ j, fn j = if cond j then 1 else 0) :
    ∀ q ∈ (List.range G).map fn, q = 0 ∨ q = 1 := by
  intro q hq
  rw [List.mem_map] at hq
  obtain ⟨j, _, rfl⟩ := hq
  rw [hfn j]
  by_cases hc : cond j
  · rw [if_pos hc]; exact Or.inr rfl
  · rw [if_neg hc]; exact Or.inl rfl

/-- Claim C6: for each of the three schemes, `createMeshIndicesImpl`
returns a row vector of length numGridPoints with entries in {0, 1}, whose
entries sum to the number of mesh points (numMeshIntervals + 1) and whose
last entry is 1, so the base-class `createMeshIndices` check accepts it;
and any mask of a different length, or whose entries sum to anything other
than the number of mesh points, makes `createMeshIndices` raise an
internal-consistency error. -/
theorem createMeshIndices_mask_properties (degree numMeshIntervals : ℕ)
    (hdeg : 1 ≤ degree) :
    (createMeshIndicesChecked (numMeshIntervals * (degree + 1) + 1)
        (numMeshIntervals + 1) (lgMeshIndicesImpl degree numMeshIntervals) =
      Except.ok (lgMeshIndicesImpl degree numMeshIntervals) ∧
      (lgMeshIndicesImpl degree numMeshIntervals).length =
        numMeshIntervals * (degree + 1) + 1 ∧
      (∀ q ∈ lgMeshIndicesImpl degree numMeshIntervals, q = 0 ∨ q = 1) ∧
      (lgMeshIndicesImpl degree numMeshIntervals).sum =
        (numMeshIntervals : ℚ) + 1 ∧
      (lgMeshIndicesImpl degree numMeshIntervals).getD
        (numMeshIntervals * (degree + 1)) 0 = 1) ∧
    (createMeshIndicesChecked (numMeshIntervals * degree + 1)
        (numMeshIntervals + 1) (lgrMeshIndicesImpl degree numMeshIntervals) =
      Except.ok (lgrMeshIndicesImpl degree numMeshIntervals) ∧
      (lgrMeshIndicesImpl degree numMeshIntervals).length =
        numMeshIntervals * degree + 1 ∧
      (∀ q ∈ lgrMeshIndicesImpl degree numMeshIntervals, q = 0 ∨ q = 1) ∧
      (lgrMeshIndicesImpl degree numMeshIntervals).sum =
        (numMeshIntervals : ℚ) + 1 ∧
      (lgrMeshIndicesImpl degree numMeshIntervals).getD
        (numMeshIntervals * degree) 0 = 1) ∧
    (createMeshIndicesChecked (numMeshIntervals + 1) (numMeshIntervals + 1)
        (trapezoidalMeshIndicesImpl (numMeshIntervals + 1)) =
      Except.ok (trapezoidalMeshIndicesImpl (numMeshIntervals + 1)) ∧
      (trapezoidalMeshIndicesImpl (numMeshIntervals + 1)).length =
        numMeshIntervals + 1 ∧
      (∀ q ∈ trapezoidalMeshIndicesImpl (numMeshIntervals + 1),
        q = 0 ∨ q = 1) ∧
      (trapezoidalMeshIndicesImpl (numMeshIntervals + 1)).sum =
        (numMeshIntervals : ℚ) + 1 ∧
      (trapezoidalMeshIndicesImpl (numMeshIntervals + 1)).getD
        numMeshIntervals 0 = 1) ∧
    (∀ (G P : ℕ) (mask : List ℚ),
      mask.length ≠ G ∨ mask.sum ≠ (P : ℚ) →
      ∃ msg, createMeshIndicesChecked G P mask = Except.error msg) := by
  have hfnLG : ∀ j,
      Function.update
        ((List.range numMeshIntervals).foldl
          (fun f imesh => Function.update f (imesh * (degree + 1)) (1 : ℚ))
          (fun _ => (0 : ℚ)))
        (numMeshIntervals * (degree + 1) + 1 - 1) (1 : ℚ) j =
      if j = numMeshIntervals * (degree + 1) ∨
          ∃ i < numMeshIntervals, j = i * (degree + 1) then 1 else 0 := by
    intro j
    have h := strideMaskFun_eval (degree + 1) numMeshIntervals j
    simpa using h
  have hfnLGR : ∀ j,
      Function.update
        ((List.range numMeshIntervals).foldl
          (fun f imesh => Function.update f (imesh * degree) (1 : ℚ))
          (fun _ => (0 : ℚ)))
        (numMeshIntervals * degree + 1 - 1) (1 : ℚ) j =
      if j = numMeshIntervals * degree ∨
          ∃ i < numMeshIntervals, j = i * degree then 1 else 0 := by
    intro j
    have h := strideMaskFun_eval degree numMeshIntervals j
    simpa using h
  have hLGlen : (lgMeshIndicesImpl degree numMeshIntervals).length =
      numMeshIntervals * (degree + 1) + 1 := by
    simp [lgMeshIndicesImpl]
  have hLGsum : (lgMeshIndicesImpl degree numMeshIntervals).sum =
      (numMeshIntervals : ℚ) + 1 := by
    show ((List.range (numMeshIntervals * (degree + 1) + 1)).map _).sum = _
    exact strideMask_sum (degree + 1) numMeshIntervals (by omega) _ hfnLG
  have hLGmem : ∀ q ∈ lgMeshIndicesImpl degree numMeshIntervals,
      q = 0 ∨ q = 1 := by
    show ∀ q ∈ (List.range (numMeshIntervals * (degree + 1) + 1)).map _, _
    exact strideMask_mem _ _ _ hfnLG
  have hLGlast : (lgMeshIndicesImpl degree numMeshIntervals).getD
      (numMeshIntervals * (degree + 1)) 0 = 1 := by
    show (((List.range (numMeshIntervals * (degree + 1) + 1)).map _).getD
      _ 0) = 1
    rw [getD_map_range _ _ _ (Nat.lt_succ_self _), hfnLG]
    rw [if_pos (Or.inl rfl)]
  have hLGRlen : (lgrMeshIndicesImpl degree numMeshIntervals).length =
      numMeshIntervals * degree + 1 := by
    simp [lgrMeshIndicesImpl]
  have hLGRsum : (lgrMeshIndicesImpl degree numMeshIntervals).sum =
      (numMeshIntervals : ℚ) + 1 := by
    show ((List.range (numMeshIntervals * degree + 1)).map _).sum = _
    exact strideMask_sum degree numMeshIntervals hdeg _ hfnLGR
  have hLGRmem : ∀ q ∈ lgrMeshIndicesImpl degree numMeshIntervals,
      q = 0 ∨ q = 1 := by
    show ∀ q ∈ (List.range (numMeshIntervals * degree + 1)).map _, _
    exact strideMask_mem _ _ _ hfnLGR
  have hLGRlast : (lgrMeshIndicesImpl degree numMeshIntervals).getD
      (numMeshIntervals * degree) 0 = 1 := by
    show (((List.range (numMeshIntervals * degree + 1)).map _).getD _ 0) = 1
    rw [getD_map_range _ _ _ (Nat.lt_succ_self _), hfnLGR]
    rw [if_pos (Or.inl rfl)]
  have hTlen : (trapezoidalMeshIndicesImpl (numMeshIntervals + 1)).length =
      numMeshIntervals + 1 := by
    simp [trapezoidalMeshIndicesImpl]
  have hTsum : (trapezoidalMeshIndicesImpl (numMeshIntervals + 1)).sum =
      (numMeshIntervals : ℚ) + 1 := by
    simp [trapezoidalMeshIndicesImpl, List.sum_replicate]
  have hTmem : ∀ q ∈ trapezoidalMeshIndicesImpl (numMeshIntervals + 1),
      q = 0 ∨ q = 1 := by
    intro q hq
    rw [trapezoidalMeshIndicesImpl, List.mem_replicate] at hq
    exact Or.inr hq.2
  have hTlast : (trapezoidalMeshIndicesImpl (numMeshIntervals + 1)).getD
      numMeshIntervals 0 = 1 := by
    rw [trapezoidalMeshIndicesImpl, List.getD_eq_getElem?_getD,
      List.getElem?_replicate]
    simp
  refine ⟨⟨?_, hLGlen, hLGmem, hLGsum, hLGlast⟩,
    ⟨?_, hLGRlen, hLGRmem, hLGRsum, hLGRlast⟩,
    ⟨?_, hTlen, hTmem, hTsum, hTlast⟩, ?_⟩
  · simp [createMeshIndicesChecked, hLGlen, hLGsum]
  · simp [createMeshIndicesChecked, hLGRlen, hLGRsum]
  · simp [createMeshIndicesChecked, hTlen, hTsum]
  · intro G P mask h
    rcases h with h | h
    · exact ⟨"createMeshIndicesImpl() must return a row vector of shape length [1, numGridPoints].",
        by simp [createMeshIndicesChecked, h]⟩
    · by_cases hlen : mask.length = G
      · exact ⟨"Internal error: sum of mesh indices should be the number of mesh points.",
          by simp [createMeshIndicesChecked, hlen, h]⟩
      · exact ⟨"createMeshIndicesImpl() must return a row vector of shape length [1, numGridPoints].",
          by simp [createMeshIndicesChecked, hlen]⟩

/-- Witness for C6 at degree 2 with 2 mesh intervals: the Legendre-Gauss
mask has 7 entries summing to 3 and the Legendre-Gauss-Radau mask has 5
entries summing to 3. -/
theorem createMeshIndices_mask_properties_witness :
    (1 ≤ 2 ∧ (lgMeshIndicesImpl 2 2).sum = (2 : ℚ) + 1) ∧
    (lgrMeshIndicesImpl 2 2).sum = (2 : ℚ) + 1 := by
  refine ⟨⟨by norm_num, ?_⟩, ?_⟩
  · exact (createMeshIndices_mask_properties 2 2 (by norm_num)).1.2.2.2.1
  · exact (createMeshIndices_mask_properties 2 2 (by norm_num)).2.1.2.2.2.1

theorem foldl_preserve {β : Type} (g : (ℕ → ℕ → ℚ) → β → (ℕ → ℕ → ℚ))
    (l : List β) (A : ℕ → ℕ → ℚ) (r c : ℕ)
    (h : ∀ A b, b ∈ l → g A b r c = A r c) :
    (l.foldl g A) r c = A r c := by
  induction l generalizing A with
  | nil => rfl
  | cons b bs ih =>
      rw [List.foldl_cons,
        ih _ (fun A x hx => h A x (List.mem_cons_of_mem b hx)),
        h A b (List.mem_cons_self b bs)]

theorem lgrFillInterval_frame (numStates numParameters degree : ℕ)
    (x xdot : ℕ → ℕ → ℚ) (ti tf : ℕ → ℚ) (p : ℕ → ℕ → ℚ) (times : ℕ → ℚ)
    (diffMatrix : ℕ → ℕ → ℚ) (defects : ℕ → ℕ → ℚ) (imesh r c : ℕ)
    (hc : c ≠ imesh) :
    lgrFillInterval numStates numParameters degree x xdot ti tf p times
      diffMatrix defects imesh r c = defects r c := by
  unfold lgrFillInterval
  rw [foldl_preserve]
  · simp only [writeBlock]
    rw [if_neg (fun hcond => hc hcond.2.2), if_neg (fun hcond => hc hcond.2.2),
      if_neg (fun hcond => hc hcond.2.2)]
  · intro A b _
    simp only [writeBlock]
    rw [if_neg (fun hcond => hc hcond.2.2)]

theorem lgrFillInterval_content (numStates numParameters degree : ℕ)
    (x xdot : ℕ → ℕ → ℚ) (ti tf : ℕ → ℚ) (p : ℕ → ℕ → ℚ) (times : ℕ → ℚ)
    (diffMatrix : ℕ → ℕ → ℚ) (defects : ℕ → ℕ → ℚ) (imesh : ℕ) :
    lgrFillInterval numStates numParameters degree x xdot ti tf p times
        diffMatrix defects imesh 0 imesh = ti (imesh + 1) - ti imesh ∧
    lgrFillInterval numStates numParameters degree x xdot ti tf p times
        diffMatrix defects imesh 1 imesh = tf (imesh + 1) - tf imesh ∧
    (∀ r < numParameters,
      lgrFillInterval numStates numParameters degree x xdot ti tf p times
        diffMatrix defects imesh (2 + r) imesh = p r (imesh + 1) - p r imesh) ∧
    (∀ d < degree, ∀ s < numStates,
      lgrFillInterval numStates numParameters degree x xdot ti tf p times
        diffMatrix defects imesh
        (d * numStates + 2 + numParameters + s) imesh =
      lgrResidual degree x xdot times diffMatrix (imesh * degree) s d) := by
  refine ⟨?_, ?_, ?_, ?_⟩
  · unfold lgrFillInterval
    rw [foldl_preserve]
    · simp only [writeBlock]
      rw [if_neg (by simp), if_neg (by simp), if_pos (by simp)]
    · intro A b _
      simp only [writeBlock]
      rw [if_neg (by
        rintro ⟨hlo, -, -⟩
        have hns : 2 + numParameters ≤ b * numStates + 2 + numParameters := by
          linarith [Nat.zero_le (b * numStates)]
        linarith)]
  · unfold lgrFillInterval
    rw [foldl_preserve]
    · simp only [writeBlock]
      rw [if_neg (by simp), if_pos (by simp)]
    · intro A b _
      simp only [writeBlock]
      rw [if_neg (by
        rintro ⟨hlo, -, -⟩
        have hns : 2 + numParameters ≤ b * numStates + 2 + numParameters := by
          linarith [Nat.zero_le (b * numStates)]
        linarith)]
  · intro r hr
    unfold lgrFillInterval
    rw [foldl_preserve]
    · simp only [writeBlock]
      rw [if_pos (by exact ⟨by omega, by omega, trivial⟩)]
      have harg : 2 + r - 2 = r := by omega
      rw [harg]
    · intro A b _
      simp only [writeBlock]
      rw [if_neg (by
        rintro ⟨hlo, -, -⟩
        have hns : 2 + numParameters ≤ b * numStates + 2 + numParameters := by
          linarith [Nat.zero_le (b * numStates)]
        linarith)]
  · intro d hd s hs
    unfold lgrFillInterval
    have hmul : (d + 1) * numStates = d * numStates + numStates := by ring
    have hdecomp : List.range degree =
        (List.range d ++ [d]) ++
          (List.range (degree - (d + 1))).map (fun k => (d + 1) + k) := by
      rw [← List.range_succ, ← List.range_add]
      congr 1
      omega
    rw [hdecomp, List.foldl_append, List.foldl_append, List.foldl_cons,
      List.foldl_nil]
    rw [foldl_preserve]
    · simp only [writeBlock]
      rw [if_pos (by exact ⟨by linarith, by linarith, trivial⟩)]
      have harg : d * numStates + 2 + numParameters + s -
          (d * numStates + 2 + numParameters) = s := by omega
      rw [harg]
    · intro A b hb
      rw [List.mem_map] at hb
      obtain ⟨k, -, rfl⟩ := hb
      simp only [writeBlock]
      rw [if_neg (by
        rintro ⟨hlo, -, -⟩
        have hle : (d + 1) * numStates ≤ ((d + 1) + k) * numStates :=
          Nat.mul_le_mul_right _ (by omega)
        linarith)]

/-- Claim C7: for the Legendre-Gauss-Radau scheme, every mesh interval's
defect column holds: row 0 = ti(imesh+1) - ti(imesh), row 1 =
tf(imesh+1) - tf(imesh), rows 2 .. 2+NP-1 = p(:,imesh+1) - p(:,imesh), and
for each collocation index d < degree, NS rows equal to
`h * stateDerivative_d - (interval state rows) * (differentiation matrix
column d)` where `h = times(igrid+degree) - times(igrid)` is the mesh
interval's duration. -/
theorem lgrCalcDefects_column_content
    (numStates numParameters degree numMeshIntervals : ℕ)
    (x xdot : ℕ → ℕ → ℚ) (ti tf : ℕ → ℚ) (p : ℕ → ℕ → ℚ) (times : ℕ → ℚ)
    (diffMatrix : ℕ → ℕ → ℚ) (defects0 : ℕ → ℕ → ℚ) (imesh : ℕ)
    (himesh : imesh < numMeshIntervals) :
    lgrCalcDefectsImpl numStates numParameters degree numMeshIntervals x
        xdot ti tf p times diffMatrix defects0 0 imesh =
      ti (imesh + 1) - ti imesh ∧
    lgrCalcDefectsImpl numStates numParameters degree numMeshIntervals x
        xdot ti tf p times diffMatrix defects0 1 imesh =
      tf (imesh + 1) - tf imesh ∧
    (∀ r < numParameters,
      lgrCalcDefectsImpl numStates numParameters degree numMeshIntervals x
          xdot ti tf p times diffMatrix defects0 (2 + r) imesh =
        p r (imesh + 1) - p r imesh) ∧
    (∀ d < degree, ∀ s < numStates,
      lgrCalcDefectsImpl numStates numParameters degree numMeshIntervals x
          xdot ti tf p times diffMatrix defects0
          (d * numStates + 2 + numParameters + s) imesh =
        (times (imesh * degree + degree) - times (imesh * degree)) *
            xdot s (imesh * degree + 1 + d) -
          ∑ k ∈ Finset.range (degree + 1),
            x s (imesh * degree + k) * diffMatrix k d) := by
  have hreduce : ∀ r : ℕ,
      lgrCalcDefectsImpl numStates numParameters degree numMeshIntervals x
        xdot ti tf p times diffMatrix defects0 r imesh =
      lgrFillInterval numStates numParameters degree x xdot ti tf p times
        diffMatrix
        ((List.range imesh).foldl
          (lgrFillInterval numStates numParameters degree x xdot ti tf p
            times diffMatrix) defects0) imesh r imesh := by
    intro r
    unfold lgrCalcDefectsImpl
    have hdecomp : List.range numMeshIntervals =
        (List.range imesh ++ [imesh]) ++
          (List.range (numMeshIntervals - (imesh + 1))).map
            (fun k => (imesh + 1) + k) := by
      rw [← List.range_succ, ← List.range_add]
      congr 1
      omega
    rw [hdecomp, List.foldl_append, List.foldl_append, List.foldl_cons,
      List.foldl_nil]
    rw [foldl_preserve]
    intro A b hb
    rw [List.mem_map] at hb
    obtain ⟨k, -, rfl⟩ := hb
    apply lgrFillInterval_frame
    omega
  have hcontent := lgrFillInterval_content numStates numParameters degree x
    xdot ti tf p times diffMatrix
    ((List.range imesh).foldl
      (lgrFillInterval numStates numParameters degree x xdot ti tf p times
        diffMatrix) defects0) imesh
  refine ⟨?_, ?_, ?_, ?_⟩
  · rw [hreduce]; exact hcontent.1
  · rw [hreduce]; exact hcontent.2.1
  · intro r hr
    rw [hreduce]; exact hcontent.2.2.1 r hr
  · intro d hd s hs
    rw [hreduce]
    exact hcontent.2.2.2 d hd s hs

/-- Witness for C7 at a one-interval degree-1 problem with one state and
one parameter: with initial-time copies 0, 1, 2, ... the first defect row
of interval 0 evaluates to 1. -/
theorem lgrCalcDefects_column_content_witness :
    (0 : ℕ) < 1 ∧
    lgrCalcDefectsImpl 1 1 1 1 (fun _ _ => 0) (fun _ _ => 0)
      (fun n => (n : ℚ)) (fun _ => 0) (fun _ _ => 0) (fun _ => 0)
      (fun _ _ => 0) (fun _ _ => 0) 0 0 = 1 := by
  refine ⟨by norm_num, ?_⟩
  have h := (lgrCalcDefects_column_content 1 1 1 1 (fun _ _ => 0)
    (fun _ _ => 0) (fun n => (n : ℚ)) (fun _ => 0) (fun _ _ => 0)
    (fun _ => 0) (fun _ _ => 0) (fun _ _ => 0) 0 (by norm_num)).1
  rw [h]
  norm_num

theorem getD_set_self {α : Type} (l : List α) (i : ℕ) (a z : α)
    (h : i < l.length) : (l.set i a).getD i z = a := by
  rw [List.getD_eq_getElem?_getD, List.getElem?_set_self h]
  rfl

theorem getD_set_ne {α : Type} (l : List α) {i j : ℕ} (a z : α)
    (h : i ≠ j) : (l.set i a).getD j z = l.getD j z := by
  rw [List.getD_eq_getElem?_getD, List.getElem?_set_ne h,
    ← List.getD_eq_getElem?_getD]

theorem getD_map_length {α β : Type} (f : α → β) (l : List α) (i : ℕ)
    (z : β) (d : α) (h : i < l.length) :
    (l.map f).getD i z = f (l.getD i d) := by
  have h2 : i < (l.map f).length := by simpa using h
  rw [List.getD_eq_getElem _ _ h2, List.getElem_map,
    List.getD_eq_getElem l d h]

theorem ConstraintsQ.setCol_lengths (c : ConstraintsQ) (s : CSlot) (j : ℕ)
    (v : ℕ → ℚ) :
    (c.setCol s j v).endpoint.length = c.endpoint.length ∧
    (c.setCol s j v).path.length = c.path.length := by
  cases s <;> simp [ConstraintsQ.setCol]

theorem ConstraintsQ.setCol_entry_frame (c : ConstraintsQ) (s s₀ : CSlot)
    (j j₀ i : ℕ) (v : ℕ → ℚ) (h : ¬(s₀ = s ∧ j₀ = j)) :
    ((c.setCol s j v).get s₀).entry i j₀ = (c.get s₀).entry i j₀ := by
  by_cases hs : s₀ = s
  · subst hs
    have hj : j₀ ≠ j := fun hj => h ⟨rfl, hj⟩
    cases s₀ with
    | endp k =>
        show ((c.endpoint.set k _).getD k _).entry i j₀ = _
        by_cases hk : k < c.endpoint.length
        · rw [getD_set_self _ _ _ _ hk]
          simp [Mat.setCol, hj, ConstraintsQ.get]
        · rw [List.set_eq_of_length_le (Nat.le_of_not_lt hk)]
          rfl
    | cpath k =>
        show ((c.path.set k _).getD k _).entry i j₀ = _
        by_cases hk : k < c.path.length
        · rw [getD_set_self _ _ _ _ hk]
          simp [Mat.setCol, hj, ConstraintsQ.get]
        · rw [List.set_eq_of_length_le (Nat.le_of_not_lt hk)]
          rfl
    | itime => simp [ConstraintsQ.get, ConstraintsQ.setCol, Mat.setCol, hj]
    | ftime => simp [ConstraintsQ.get, ConstraintsQ.setCol, Mat.setCol, hj]
    | cparams => simp [ConstraintsQ.get, ConstraintsQ.setCol, Mat.setCol, hj]
    | cdefects => simp [ConstraintsQ.get, ConstraintsQ.setCol, Mat.setCol, hj]
    | mbr => simp [ConstraintsQ.get, ConstraintsQ.setCol, Mat.setCol, hj]
    | aux => simp [ConstraintsQ.get, ConstraintsQ.setCol, Mat.setCol, hj]
    | kin => simp [ConstraintsQ.get, ConstraintsQ.setCol, Mat.setCol, hj]
    | interp => simp [ConstraintsQ.get, ConstraintsQ.setCol, Mat.setCol, hj]
  · cases s₀ <;> cases s <;> try rfl
    all_goals try exact absurd rfl hs
    all_goals
      simp only [ConstraintsQ.get, ConstraintsQ.setCol]
    all_goals rw [getD_set_ne _ _ _ (fun hk => hs (by rw [hk]))]

theorem ConstraintsQ.setCol_entry_self (c : ConstraintsQ) (s : CSlot)
    (j i : ℕ) (v : ℕ → ℚ) (hok : c.SlotInBounds s) :
    ((c.setCol s j v).get s).entry i j = v i := by
  cases s with
  | endp k =>
      show ((c.endpoint.set k _).getD k _).entry i j = _
      rw [getD_set_self _ _ _ _ hok]
      simp [Mat.setCol]
  | cpath k =>
      show ((c.path.set k _).getD k _).entry i j = _
      rw [getD_set_self _ _ _ _ hok]
      simp [Mat.setCol]
  | itime => simp [ConstraintsQ.get, ConstraintsQ.setCol, Mat.setCol]
  | ftime => simp [ConstraintsQ.get, ConstraintsQ.setCol, Mat.setCol]
  | cparams => simp [ConstraintsQ.get, ConstraintsQ.setCol, Mat.setCol]
  | cdefects => simp [ConstraintsQ.get, ConstraintsQ.setCol, Mat.setCol]
  | mbr => simp [ConstraintsQ.get, ConstraintsQ.setCol, Mat.setCol]
  | aux => simp [ConstraintsQ.get, ConstraintsQ.setCol, Mat.setCol]
  | kin => simp [ConstraintsQ.get, ConstraintsQ.setCol, Mat.setCol]
  | interp => simp [ConstraintsQ.get, ConstraintsQ.setCol, Mat.setCol]

theorem ConstraintsQ.setCol_get_shape (c : ConstraintsQ) (s s₀ : CSlot)
    (j : ℕ) (v : ℕ → ℚ) :
    ((c.setCol s j v).get s₀).rows = (c.get s₀).rows ∧
    ((c.setCol s j v).get s₀).cols = (c.get s₀).cols := by
  by_cases hs : s₀ = s
  · subst hs
    cases s₀ with
    | endp k =>
        simp only [ConstraintsQ.get, ConstraintsQ.setCol]
        by_cases hk : k < c.endpoint.length
        · rw [getD_set_self _ _ _ _ hk]
          exact ⟨rfl, rfl⟩
        · rw [List.set_eq_of_length_le (Nat.le_of_not_lt hk)]
          exact ⟨rfl, rfl⟩
    | cpath k =>
        simp only [ConstraintsQ.get, ConstraintsQ.setCol]
        by_cases hk : k < c.path.length
        · rw [getD_set_self _ _ _ _ hk]
          exact ⟨rfl, rfl⟩
        · rw [List.set_eq_of_length_le (Nat.le_of_not_lt hk)]
          exact ⟨rfl, rfl⟩
    | itime => exact ⟨rfl, rfl⟩
    | ftime => exact ⟨rfl, rfl⟩
    | cparams => exact ⟨rfl, rfl⟩
    | cdefects => exact ⟨rfl, rfl⟩
    | mbr => exact ⟨rfl, rfl⟩
    | aux => exact ⟨rfl, rfl⟩
    | kin => exact ⟨rfl, rfl⟩
    | interp => exact ⟨rfl, rfl⟩
  · cases s₀ <;> cases s <;> try exact ⟨rfl, rfl⟩
    all_goals
      simp only [ConstraintsQ.get, ConstraintsQ.setCol]
    all_goals
      refine ⟨?_, ?_⟩ <;>
        rw [getD_set_ne _ _ _ (fun hk => hs (by rw [hk]))]

theorem OutShaped_expandInit (D : CDims) : OutShaped D (expandInit D) := by
  refine ⟨by simp [expandInit], by simp [expandInit], ?_⟩
  intro s hs
  cases s with
  | endp i =>
      simp only [SlotOK] at hs
      simp only [ConstraintsQ.get, expandInit]
      rw [getD_map_length _ _ _ _ 0 hs]
      exact ⟨rfl, rfl⟩
  | cpath i =>
      simp only [SlotOK] at hs
      simp only [ConstraintsQ.get, expandInit]
      rw [getD_map_length _ _ _ _ 0 hs]
      exact ⟨rfl, rfl⟩
  | itime => exact ⟨rfl, rfl⟩
  | ftime => exact ⟨rfl, rfl⟩
  | cparams => exact ⟨rfl, rfl⟩
  | cdefects => exact ⟨rfl, rfl⟩
  | mbr => exact ⟨rfl, rfl⟩
  | aux => exact ⟨rfl, rfl⟩
  | kin => exact ⟨rfl, rfl⟩
  | interp => exact ⟨rfl, rfl⟩

theorem OutShaped_setCol (D : CDims) (out : ConstraintsQ)
    (h : OutShaped D out) (s : CSlot) (j : ℕ) (v : ℕ → ℚ) :
    OutShaped D (out.setCol s j v) := by
  obtain ⟨h1, h2, h3⟩ := h
  refine ⟨?_, ?_, ?_⟩
  · rw [(ConstraintsQ.setCol_lengths out s j v).1]
    exact h1
  · rw [(ConstraintsQ.setCol_lengths out s j v).2]
    exact h2
  · intro s₀ hs₀
    obtain ⟨hr, hc2⟩ := ConstraintsQ.setCol_get_shape out s s₀ j v
    rw [hr, hc2]
    exact h3 s₀ hs₀

theorem SlotInBounds_of_OutShaped (D : CDims) (out : ConstraintsQ)
    (hout : OutShaped D out) (s : CSlot) (hs : SlotOK D s) :
    out.SlotInBounds s := by
  cases s with
  | endp i =>
      simp only [SlotOK] at hs
      simp only [ConstraintsQ.SlotInBounds, hout.1]
      exact hs
  | cpath i =>
      simp only [SlotOK] at hs
      simp only [ConstraintsQ.SlotInBounds, hout.2.1]
      exact hs
  | itime => trivial
  | ftime => trivial
  | cparams => trivial
  | cdefects => trivial
  | mbr => trivial
  | aux => trivial
  | kin => trivial
  | interp => trivial

theorem WellShaped_get (D : CDims) (c : ConstraintsQ) (hc : c.WellShaped D) :
    c.endpoint.length = D.endpointNumOutputs.length ∧
    c.path.length = D.pathInfoSizes.length ∧
    ∀ s, SlotOK D s → (c.get s).rows = declaredRows D s ∧
      (c.get s).cols = declaredCols D s := by
  obtain ⟨h1, h2, h3, h4, h5, h6, h7, h8, h9, h10, h11, h12, h13, h14, hel,
    hend, hpl, hpath2, h15, h16⟩ := hc
  refine ⟨hel, hpl, ?_⟩
  intro s hs
  cases s with
  | itime => exact ⟨h1, h2⟩
  | ftime => exact ⟨h3, h4⟩
  | cparams => exact ⟨h5, h6⟩
  | cdefects => exact ⟨h7, h8⟩
  | mbr => exact ⟨h9, h10⟩
  | aux => exact ⟨h11, h12⟩
  | kin => exact ⟨h13, h14⟩
  | endp i => exact hend i hs
  | cpath i => exact hpath2 i hs
  | interp => exact ⟨h15, h16⟩

theorem flattenLoop_spec (c : ConstraintsQ) (V : List (CSlot × ℕ)) :
    ∀ acc : List ℚ,
    (∀ v ∈ V, (c.get v.1).rows ≠ 0 → v.2 < (c.get v.1).cols) →
    flattenLoop c V acc = Except.ok (acc ++ V.flatMap (colOf c)) := by
  induction V with
  | nil => intro acc _; simp [flattenLoop]
  | cons v vs ih =>
      intro acc hbV
      have hbvs : ∀ w ∈ vs, (c.get w.1).rows ≠ 0 → w.2 < (c.get w.1).cols :=
        fun w hw => hbV w (List.mem_cons_of_mem _ hw)
      by_cases hr : (c.get v.1).rows = 0
      · have hcol : colOf c v = [] := by
          simp [colOf, Mat.col, hr]
        simp [flattenLoop, flattenStep, hr, hcol, ih acc hbvs]
      · have hb := hbV v (List.mem_cons_self v vs) hr
        simp [flattenLoop, flattenStep, hr, hb,
          ih (acc ++ colOf c v) hbvs, List.append_assoc]

theorem flatMap_colOf_length (c : ConstraintsQ) (D : CDims)
    (V : List (CSlot × ℕ))
    (hcs : ∀ v ∈ V, (c.get v.1).rows = declaredRows D v.1) :
    (V.flatMap (colOf c)).length =
      (V.map (fun v => declaredRows D v.1)).sum := by
  induction V with
  | nil => rfl
  | cons v vs ih =>
      rw [List.flatMap_cons, List.length_append, List.map_cons, List.sum_cons,
        colOf, Mat.col_length, hcs v (List.mem_cons_self v vs),
        ih (fun w hw => hcs w (List.mem_cons_of_mem _ hw))]

theorem expandLoop_spec (D : CDims) (c : ConstraintsQ) (flat post : List ℚ)
    (hcs : ∀ s, SlotOK D s → (c.get s).rows = declaredRows D s ∧
      (c.get s).cols = declaredCols D s) :
    ∀ (V : List (CSlot × ℕ)) (pre : List ℚ) (out : ConstraintsQ),
    (∀ v ∈ V, SlotOK D v.1 ∧ v.2 < declaredCols D v.1) →
    flat = pre ++ V.flatMap (colOf c) ++ post →
    OutShaped D out →
    ∃ out2 : ConstraintsQ,
      expandLoop flat V (pre.length, out) =
        Except.ok (pre.length + (V.flatMap (colOf c)).length, out2) ∧
      OutShaped D out2 ∧
      (∀ s j₀ i, (s, j₀) ∉ V →
        (out2.get s).entry i j₀ = (out.get s).entry i j₀) ∧
      (∀ s j₀, (s, j₀) ∈ V → ∀ i < declaredRows D s,
        (out2.get s).entry i j₀ = (c.get s).entry i j₀) := by
  intro V
  induction V with
  | nil =>
      intro pre out _ _ hout
      refine ⟨out, by simp [expandLoop], hout, fun s j₀ i _ => rfl, ?_⟩
      intro s j₀ hmem
      simp at hmem
  | cons v vs ih =>
      intro pre out hbV hflat hout
      obtain ⟨hvOK, hvb⟩ := hbV v (List.mem_cons_self v vs)
      have hbvs : ∀ w ∈ vs, SlotOK D w.1 ∧ w.2 < declaredCols D w.1 :=
        fun w hw => hbV w (List.mem_cons_of_mem _ hw)
      have hrows_out : (out.get v.1).rows = declaredRows D v.1 :=
        (hout.2.2 v.1 hvOK).1
      have hcols_out : (out.get v.1).cols = declaredCols D v.1 :=
        (hout.2.2 v.1 hvOK).2
      have hrows_c : (c.get v.1).rows = declaredRows D v.1 := (hcs v.1 hvOK).1
      have hcol_len : (colOf c v).length = declaredRows D v.1 := by
        rw [colOf, Mat.col_length, hrows_c]
      by_cases hr : declaredRows D v.1 = 0
      · have hstep : expandStep flat (pre.length, out) v =
            Except.ok (pre.length, out) := by
          simp [expandStep, hrows_out, hr]
        have hcol : colOf c v = [] :=
          List.length_eq_zero.mp (by rw [hcol_len, hr])
        have hflat2 : flat = pre ++ vs.flatMap (colOf c) ++ post := by
          rw [hflat, List.flatMap_cons, hcol]
          simp
        obtain ⟨out2, hrun, hsh, hfr, hval⟩ := ih pre out hbvs hflat2 hout
        refine ⟨out2, ?_, hsh, ?_, ?_⟩
        · rw [show expandLoop flat (v :: vs) (pre.length, out) =
              expandLoop flat vs (pre.length, out) by
            simp [expandLoop, hstep]]
          rw [hrun, List.flatMap_cons, hcol]
          simp
        · intro s j₀ i hmem
          exact hfr s j₀ i (fun h => hmem (List.mem_cons_of_mem _ h))
        · intro s j₀ hmem i hi
          rcases List.mem_cons.mp hmem with hsv | hmem2
          · obtain ⟨sv, jv⟩ := v
            rw [Prod.mk.injEq] at hsv
            obtain ⟨rfl, rfl⟩ := hsv
            have hr2 : declaredRows D s = 0 := hr
            exact absurd hi (by omega)
          · exact hval s j₀ hmem2 i hi
      · have hlen_ok : pre.length + declaredRows D v.1 ≤ flat.length := by
          rw [hflat, List.flatMap_cons]
          simp only [List.length_append, hcol_len]
          omega
        have hstep : expandStep flat (pre.length, out) v =
            Except.ok (pre.length + declaredRows D v.1,
              out.setCol v.1 v.2 (fun i => flat.getD (pre.length + i) 0)) := by
          rw [expandStep]
          rw [if_neg (by rw [hrows_out]; exact hr),
            if_pos (by rw [hcols_out]; exact hvb),
            if_pos (by rw [hrows_out]; exact hlen_ok)]
          rw [hrows_out]
        have hout2 : OutShaped D
            (out.setCol v.1 v.2 (fun i => flat.getD (pre.length + i) 0)) :=
          OutShaped_setCol D out hout v.1 v.2 _
        have hflat2 : flat =
            (pre ++ colOf c v) ++ vs.flatMap (colOf c) ++ post := by
          rw [hflat, List.flatMap_cons]
          simp [List.append_assoc]
        obtain ⟨out2, hrun, hsh, hfr, hval⟩ :=
          ih (pre ++ colOf c v)
            (out.setCol v.1 v.2 (fun i => flat.getD (pre.length + i) 0))
            hbvs hflat2 hout2
        have hplen : (pre ++ colOf c v).length =
            pre.length + declaredRows D v.1 := by
          simp [hcol_len]
        refine ⟨out2, ?_, hsh, ?_, ?_⟩
        · rw [show expandLoop flat (v :: vs) (pre.length, out) =
              expandLoop flat vs (pre.length + declaredRows D v.1,
                out.setCol v.1 v.2
                  (fun i => flat.getD (pre.length + i) 0)) by
            simp [expandLoop, hstep]]
          rw [← hplen, hrun, hplen]
          rw [List.flatMap_cons, List.length_append, hcol_len]
          rw [Nat.add_assoc]
        · intro s j₀ i hmem
          rw [hfr s j₀ i (fun h => hmem (List.mem_cons_of_mem _ h))]
          refine ConstraintsQ.setCol_entry_frame out v.1 s v.2 j₀ i _ ?_
          rintro ⟨rfl, rfl⟩
          exact hmem (List.mem_cons_self _ _)
        · intro s j₀ hmem i hi
          by_cases hmem2 : (s, j₀) ∈ vs
          · exact hval s j₀ hmem2 i hi
          · have hsv : (s, j₀) = v := by
              rcases List.mem_cons.mp hmem with h | h
              · exact h
              · exact absurd h hmem2
            obtain ⟨sv, jv⟩ := v
            rw [Prod.mk.injEq] at hsv
            obtain ⟨rfl, rfl⟩ := hsv
            have hcl2 : (colOf c (s, j₀)).length = declaredRows D s :=
              hcol_len
            have hrc2 : (c.get s).rows = declaredRows D s := hrows_c
            rw [hfr s j₀ i hmem2]
            rw [ConstraintsQ.setCol_entry_self out s j₀ i _
              (SlotInBounds_of_OutShaped D out hout s hvOK)]
            have hilt : i < (colOf c (s, j₀)).length := by
              rw [hcl2]
              omega
            have hgd : flat.getD (pre.length + i) 0 =
                (colOf c (s, j₀)).getD i 0 := by
              rw [hflat2]
              rw [List.getD_append _ _ _ _ (by
                have hlen1 :
                    ((pre ++ colOf c (s, j₀)) ++ vs.flatMap (colOf c)).length
                      = pre.length + (colOf c (s, j₀)).length +
                        (vs.flatMap (colOf c)).length := by
                  simp
                  omega
                omega)]
              rw [List.getD_append _ _ _ _ (by
                have hlen2 : (pre ++ colOf c (s, j₀)).length =
                    pre.length + (colOf c (s, j₀)).length := by
                  simp
                omega)]
              rw [List.getD_append_right _ _ _ _
                (Nat.le_add_right pre.length i), Nat.add_sub_cancel_left]
            rw [hgd, colOf, Mat.col]
            rw [getD_map_range _ _ _ (by rw [hrc2]; omega)]

theorem constraintVisits_eq (D : CDims)
    (hN : D.numPointsPerMeshInterval = 2)
    (hnip : D.numPointsForInterpControls = 0) :
    constraintVisits D =
      (List.range D.endpointNumOutputs.length).map
        (fun e => (CSlot.endp e, 0))
      ++ (List.range D.numMeshIntervals).flatMap (fun imesh =>
          [(CSlot.itime, imesh), (CSlot.ftime, imesh),
           (CSlot.cparams, imesh), (CSlot.cdefects, imesh),
           (CSlot.mbr, imesh), (CSlot.aux, imesh), (CSlot.kin, imesh)]
          ++ (List.range D.pathInfoSizes.length).map
              (fun ip => (CSlot.cpath ip, imesh)))
      ++ [(CSlot.mbr, D.numMeshIntervals), (CSlot.aux, D.numMeshIntervals),
          (CSlot.kin, D.numMeshIntervals)]
      ++ (List.range D.pathInfoSizes.length).map
          (fun ip => (CSlot.cpath ip, D.numMeshIntervals)) := by
  have hN1 : D.N = 1 := by simp [CDims.N, hN]
  have hG : D.numGridPoints - 1 = D.numMeshIntervals := by
    simp [CDims.numGridPoints, hN1]
  have hM : D.numMeshPoints - 1 = D.numMeshIntervals := by
    simp [CDims.numMeshPoints]
  unfold constraintVisits
  rw [hN1, hnip, hG, hM]
  have hr1 : List.range 1 = [0] := rfl
  simp [hr1]

theorem visits_bound (D : CDims)
    (hN : D.numPointsPerMeshInterval = 2)
    (hnpc : D.numParameterConstraints = D.numMeshIntervals)
    (hnip : D.numPointsForInterpControls = 0)
    (hpp : D.numPathConstraintPoints = D.numMeshIntervals + 1) :
    ∀ v ∈ constraintVisits D, SlotOK D v.1 ∧ v.2 < declaredCols D v.1 := by
  rw [constraintVisits_eq D hN hnip]
  have hG1 : D.numGridPoints = D.numMeshIntervals + 1 := by
    simp [CDims.numGridPoints, CDims.N, hN]
  have hM1 : D.numMeshPoints = D.numMeshIntervals + 1 := rfl
  intro v hv
  rcases List.mem_append.mp hv with h1 | hD
  · rcases List.mem_append.mp h1 with h2 | hC
    · rcases List.mem_append.mp h2 with hA | hB
      · obtain ⟨e, he, rfl⟩ := List.mem_map.mp hA
        rw [List.mem_range] at he
        exact ⟨he, by simp [declaredCols]⟩
      · obtain ⟨imesh, him, hblk⟩ := List.mem_flatMap.mp hB
        rw [List.mem_range] at him
        rcases List.mem_append.mp hblk with h7 | hpath
        · simp only [List.mem_cons, List.not_mem_nil, or_false] at h7
          rcases h7 with rfl | rfl | rfl | rfl | rfl | rfl | rfl
          · exact ⟨trivial, by simp only [declaredCols]; omega⟩
          · exact ⟨trivial, by simp only [declaredCols]; omega⟩
          · exact ⟨trivial,
              by simp only [declaredCols, CDims.numMeshPoints]; omega⟩
          · exact ⟨trivial,
              by simp only [declaredCols, CDims.numMeshPoints]; omega⟩
          · exact ⟨trivial, by simp only [declaredCols, hG1]; omega⟩
          · exact ⟨trivial, by simp only [declaredCols, hG1]; omega⟩
          · exact ⟨trivial, by simp only [declaredCols, hM1]; omega⟩
        · obtain ⟨ip, hip, rfl⟩ := List.mem_map.mp hpath
          rw [List.mem_range] at hip
          exact ⟨hip, by simp only [declaredCols, hpp]; omega⟩
    · simp only [List.mem_cons, List.not_mem_nil, or_false] at hC
      rcases hC with rfl | rfl | rfl
      · exact ⟨trivial, by simp only [declaredCols, hG1]; omega⟩
      · exact ⟨trivial, by simp only [declaredCols, hG1]; omega⟩
      · exact ⟨trivial, by simp only [declaredCols, hM1]; omega⟩
  · obtain ⟨ip, hip, rfl⟩ := List.mem_map.mp hD
    rw [List.mem_range] at hip
    exact ⟨hip, by simp only [declaredCols, hpp]; omega⟩

theorem visits_cover (D : CDims)
    (hN : D.numPointsPerMeshInterval = 2)
    (hnpc : D.numParameterConstraints = D.numMeshIntervals)
    (hnip : D.numPointsForInterpControls = 0)
    (hpp : D.numPathConstraintPoints = D.numMeshIntervals + 1) :
    ∀ s, SlotOK D s → ∀ j < declaredCols D s,
      (s, j) ∈ constraintVisits D := by
  rw [constraintVisits_eq D hN hnip]
  have hG1 : D.numGridPoints = D.numMeshIntervals + 1 := by
    simp [CDims.numGridPoints, CDims.N, hN]
  have hM1 : D.numMeshPoints = D.numMeshIntervals + 1 := rfl
  intro s hs j hj
  cases s with
  | itime =>
      have hjM : j < D.numMeshIntervals := by
        have : j < D.numParameterConstraints := hj
        omega
      refine List.mem_append.mpr (Or.inl (List.mem_append.mpr (Or.inl
        (List.mem_append.mpr (Or.inr (List.mem_flatMap.mpr
          ⟨j, List.mem_range.mpr hjM, by simp⟩))))))
  | ftime =>
      have hjM : j < D.numMeshIntervals := by
        have : j < D.numParameterConstraints := hj
        omega
      refine List.mem_append.mpr (Or.inl (List.mem_append.mpr (Or.inl
        (List.mem_append.mpr (Or.inr (List.mem_flatMap.mpr
          ⟨j, List.mem_range.mpr hjM, by simp⟩))))))
  | cparams =>
      have hjM : j < D.numMeshIntervals := by
        have : j < D.numMeshPoints - 1 := hj
        omega
      refine List.mem_append.mpr (Or.inl (List.mem_append.mpr (Or.inl
        (List.mem_append.mpr (Or.inr (List.mem_flatMap.mpr
          ⟨j, List.mem_range.mpr hjM, by simp⟩))))))
  | cdefects =>
      have hjM : j < D.numMeshIntervals := by
        have : j < D.numMeshPoints - 1 := hj
        omega
      refine List.mem_append.mpr (Or.inl (List.mem_append.mpr (Or.inl
        (List.mem_append.mpr (Or.inr (List.mem_flatMap.mpr
          ⟨j, List.mem_range.mpr hjM, by simp⟩))))))
  | mbr =>
      have hjM : j < D.numMeshIntervals + 1 := by
        have : j < D.numGridPoints := hj
        omega
      by_cases hjlt : j < D.numMeshIntervals
      · refine List.mem_append.mpr (Or.inl (List.mem_append.mpr (Or.inl
          (List.mem_append.mpr (Or.inr (List.mem_flatMap.mpr
            ⟨j, List.mem_range.mpr hjlt, by simp⟩))))))
      · have hjeq : j = D.numMeshIntervals := by omega
        subst hjeq
        refine List.mem_append.mpr (Or.inl (List.mem_append.mpr (Or.inr
          (by simp))))
  | aux =>
      have hjM : j < D.numMeshIntervals + 1 := by
        have : j < D.numGridPoints := hj
        omega
      by_cases hjlt : j < D.numMeshIntervals
      · refine List.mem_append.mpr (Or.inl (List.mem_append.mpr (Or.inl
          (List.mem_append.mpr (Or.inr (List.mem_flatMap.mpr
            ⟨j, List.mem_range.mpr hjlt, by simp⟩))))))
      · have hjeq : j = D.numMeshIntervals := by omega
        subst hjeq
        refine List.mem_append.mpr (Or.inl (List.mem_append.mpr (Or.inr
          (by simp))))
  | kin =>
      have hjM : j < D.numMeshIntervals + 1 := by
        have : j < D.numMeshPoints := hj
        omega
      by_cases hjlt : j < D.numMeshIntervals
      · refine List.mem_append.mpr (Or.inl (List.mem_append.mpr (Or.inl
          (List.mem_append.mpr (Or.inr (List.mem_flatMap.mpr
            ⟨j, List.mem_range.mpr hjlt, by simp⟩))))))
      · have hjeq : j = D.numMeshIntervals := by omega
        subst hjeq
        refine List.mem_append.mpr (Or.inl (List.mem_append.mpr (Or.inr
          (by simp))))
  | endp e =>
      have hj0 : j = 0 := by
        have : j < 1 := hj
        omega
      subst hj0
      have he : e < D.endpointNumOutputs.length := hs
      refine List.mem_append.mpr (Or.inl (List.mem_append.mpr (Or.inl
        (List.mem_append.mpr (Or.inl (List.mem_map.mpr
          ⟨e, List.mem_range.mpr he, rfl⟩))))))
  | cpath ip =>
      have hip : ip < D.pathInfoSizes.length := hs
      have hjM : j < D.numMeshIntervals + 1 := by
        have : j < D.numPathConstraintPoints := hj
        omega
      by_cases hjlt : j < D.numMeshIntervals
      · refine List.mem_append.mpr (Or.inl (List.mem_append.mpr (Or.inl
          (List.mem_append.mpr (Or.inr (List.mem_flatMap.mpr
            ⟨j, List.mem_range.mpr hjlt, List.mem_append.mpr (Or.inr
              (List.mem_map.mpr ⟨ip, List.mem_range.mpr hip, rfl⟩))⟩))))))
      · have hjeq : j = D.numMeshIntervals := by omega
        subst hjeq
        refine List.mem_append.mpr (Or.inr
          (List.mem_map.mpr ⟨ip, List.mem_range.mpr hip, rfl⟩))
  | interp =>
      have : j < D.numPointsForInterpControls := hj
      omega

/-- Claim C2 counterexample: with the Legendre-Gauss-Radau degree-2 layout
(numPointsPerMeshInterval = 3, so N = 2) and the declared shapes, the
flatten traversal visits two parameter-continuity columns per mesh
interval while `expandConstraints` declares only numMeshPoints - 1 = 1
parameter column, so `flattenConstraints` aborts with an out-of-range
column access instead of producing a flat vector — the claimed round trip
cannot even start. -/
theorem flattenConstraints_degree2_out_of_range :
    c2Aggregate.WellShaped c2Dims ∧
    flattenConstraints c2Dims 6 c2Aggregate =
      Except.error "column index out of range" := by
  exact ⟨by decide, by rfl⟩

/-- Claim C2 (amended): for a transcription with numPointsPerMeshInterval
= 2 (N = 1), m_numParameterConstraints = numMeshIntervals, no
interpolating-control points, and numPathConstraintPoints = numMeshPoints,
and for every aggregate c with the declared shapes: `flattenConstraints`
produces a flat vector of exactly m_numConstraints entries when
m_numConstraints equals the total visited row count, and otherwise an
internal-consistency error is raised, in both directions; and
`expandConstraints (flattenConstraints c) = c` slot by slot. -/
theorem flattenExpandConstraints_roundtrip (D : CDims) (c : ConstraintsQ)
    (hN : D.numPointsPerMeshInterval = 2)
    (hnpc : D.numParameterConstraints = D.numMeshIntervals)
    (hnip : D.numPointsForInterpControls = 0)
    (hpp : D.numPathConstraintPoints = D.numMeshIntervals + 1)
    (hc : c.WellShaped D) :
    ∃ flat : List ℚ,
      flattenConstraints D (totalConstraintRows D) c = Except.ok flat ∧
      flat.length = totalConstraintRows D ∧
      (∀ NC, NC ≠ totalConstraintRows D →
        (∃ e, flattenConstraints D NC c = Except.error e) ∧
        (∃ e2, expandConstraints D NC flat = Except.error e2)) ∧
      ∃ out : ConstraintsQ,
        expandConstraints D (totalConstraintRows D) flat = Except.ok out ∧
        ConstraintsQ.EqvDecl D out c := by
  obtain ⟨hel, hpl, hcs⟩ := WellShaped_get D c hc
  have hbv := visits_bound D hN hnpc hnip hpp
  have hcov := visits_cover D hN hnpc hnip hpp
  have hbc : ∀ v ∈ constraintVisits D,
      (c.get v.1).rows ≠ 0 → v.2 < (c.get v.1).cols := by
    intro v hv _
    obtain ⟨hok, hb⟩ := hbv v hv
    rw [(hcs v.1 hok).2]
    exact hb
  have hflatrun := flattenLoop_spec c (constraintVisits D) [] hbc
  have hlen : ((constraintVisits D).flatMap (colOf c)).length =
      totalConstraintRows D := by
    rw [totalConstraintRows]
    apply flatMap_colOf_length
    intro v hv
    exact (hcs v.1 (hbv v hv).1).1
  obtain ⟨out2, hrun, hsh, hfr, hval⟩ :=
    expandLoop_spec D c ((constraintVisits D).flatMap (colOf c)) [] hcs
      (constraintVisits D) [] (expandInit D)
      (fun v hv => hbv v hv) (by simp) (OutShaped_expandInit D)
  simp only [List.nil_append] at hflatrun
  simp only [List.length_nil, Nat.zero_add] at hrun
  refine ⟨(constraintVisits D).flatMap (colOf c), ?_, hlen, ?_, out2, ?_, ?_⟩
  · rw [flattenConstraints, hflatrun]
    exact if_pos hlen
  · intro NC hNC
    have hne : ¬(((constraintVisits D).flatMap (colOf c)).length = NC) := by
      rw [hlen]
      exact fun h => hNC h.symm
    constructor
    · refine ⟨"Internal error: final value of the index into the flattened constraints should be equal to the number of constraints.", ?_⟩
      rw [flattenConstraints, hflatrun]
      exact if_neg hne
    · refine ⟨"Internal error: final value of the index into the flattened constraints should be equal to the number of constraints.", ?_⟩
      rw [expandConstraints, hrun]
      exact if_neg hne
  · rw [expandConstraints, hrun]
    exact if_pos hlen
  · refine ⟨hsh.1.trans hel.symm, hsh.2.1.trans hpl.symm, ?_⟩
    intro s hsok
    refine ⟨?_, ?_, ?_⟩
    · rw [(hsh.2.2 s hsok).1, (hcs s hsok).1]
    · rw [(hsh.2.2 s hsok).2, (hcs s hsok).2]
    · intro i hi j hj
      have hi2 : i < declaredRows D s := by
        rw [← (hsh.2.2 s hsok).1]
        exact hi
      have hj2 : j < declaredCols D s := by
        rw [← (hsh.2.2 s hsok).2]
        exact hj
      exact hval s j (hcov s hsok j hj2) i hi2

/-- Witness for C2 at a concrete one-interval trapezoidal-layout problem:
the flatten/expand round trip succeeds and returns the aggregate
unchanged. -/
theorem flattenExpandConstraints_roundtrip_witness :
    ∃ flat : List ℚ,
      flattenConstraints c3Dims (totalConstraintRows c3Dims) c3Aggregate =
        Except.ok flat ∧
      ∃ out : ConstraintsQ,
        expandConstraints c3Dims (totalConstraintRows c3Dims) flat =
          Except.ok out ∧
        ConstraintsQ.EqvDecl c3Dims out c3Aggregate := by
  obtain ⟨flat, h1, h2, h3, out, h4, h5⟩ :=
    flattenExpandConstraints_roundtrip c3Dims c3Aggregate rfl rfl rfl rfl
      (by decide)
  exact ⟨flat, h1, out, h4, h5⟩

end CasOC
